import Mathlib

/-!
# Verification of the P2P file-sharing tracker and client

A shallow embedding, in Lean 4, of the tracker state store and handlers
(`handlers.go` / `sync.go`), the client chunker (`chunk.go`), the client
tracker connector (`tracker_conn.go`) and the client download engine
(`download.go`) of the SVMK2808/P2P_File_sharing repository, together with
proofs and refutations of the behavioural properties stated in its
specification.

Modelling conventions:

* Go `map[string]V` values are modelled as association lists (`SMap`);
  `map[string]bool` values used as sets are modelled as string lists
  (`SSet`) with insert-if-absent semantics.  Go map iteration order is
  unspecified; wherever a handler iterates over a map we use list order,
  and no theorem below depends on the particular order.
* Handlers return `Option (Response × TrackerState × List Broadcast)`:
  `none` models a Go runtime panic (nil-pointer dereference or
  out-of-range index), and the broadcast list records the arguments of
  every `go broadcastToTrackers(...)` the handler spawns.
* Network and disk I/O are modelled by explicit oracle parameters
  (`net`, `fetch`, bitfield oracles, in-memory file contents); the
  `encoding/json` deserialization of the chunk manifest argument of
  `upload_file` is abstracted as a `decode` parameter, universally
  quantified in every theorem about the tracker.
* File bytes are modelled as `List Nat`; SHA-256 is an explicit `sha`
  function parameter (no theorem depends on properties of the hash).
-/

namespace P2P

/-- Association-list model of a Go `map[string]V`. -/
abbrev SMap (α : Type) : Type := List (String × α)

/-- Lookup in a `map[string]V` (`m[k]`, second result dropped). -/
def SMap.find {α : Type} : SMap α → String → Option α
  | [], _ => none
  | (k', v) :: rest, k => if k' = k then some v else SMap.find rest k

/-- Assignment `m[k] = v` into a `map[string]V`. -/
def SMap.set {α : Type} : SMap α → String → α → SMap α
  | [], k, v => [(k, v)]
  | (k', v') :: rest, k, v =>
      if k' = k then (k, v) :: rest else (k', v') :: SMap.set rest k v

/-- Deletion `delete(m, k)` from a `map[string]V`. -/
def SMap.del {α : Type} : SMap α → String → SMap α
  | [], _ => []
  | (k', v') :: rest, k =>
      if k' = k then SMap.del rest k else (k', v') :: SMap.del rest k

/-- `len(m) == 0` for a `map[string]V`. -/
def SMap.isEmpty {α : Type} (m : SMap α) : Bool := List.isEmpty m

/-- The key list of a `map[string]V` (iteration over keys). -/
def SMap.keys {α : Type} (m : SMap α) : List String := List.map (fun p => p.1) m

/-- The value list of a `map[string]V` (iteration over values). -/
def SMap.vals {α : Type} (m : SMap α) : List α := List.map (fun p => p.2) m

/-- Model of a Go `map[string]bool` used as a set of strings. -/
abbrev SSet : Type := List String

/-- Membership test `m[k]` on a `map[string]bool` (default `false`). -/
def SSet.mem : SSet → String → Bool
  | [], _ => false
  | x :: rest, k => if x = k then true else SSet.mem rest k

/-- Insertion `m[k] = true` into a `map[string]bool` (no-op when present). -/
def SSet.add (s : SSet) (k : String) : SSet :=
  if SSet.mem s k then s else k :: s

/-- Deletion `delete(m, k)` from a `map[string]bool`. -/
def SSet.del : SSet → String → SSet
  | [], _ => []
  | x :: rest, k => if x = k then SSet.del rest k else x :: SSet.del rest k

/-! ## Tracker data model (`types.go`) -/

/-- `User` from the tracker's `types.go`. -/
structure User where
  userID : String
  password : String
  loggedIn : Bool
  addr : String
deriving DecidableEq

/-- `Group` from the tracker's `types.go`. -/
structure Group where
  groupID : String
  owner : String
  members : SSet
  pending : SSet
deriving DecidableEq

/-- `Chunk` from the tracker's `types.go` (identical to the client's
`ChunkInfo` in `chunk.go`: `{index, hash, size}`). -/
structure ChunkInfo where
  index : Int
  hash : String
  size : Int
deriving DecidableEq

/-- `File` from the tracker's `types.go`. -/
structure File where
  fileName : String
  groupID : String
  uploader : String
  fileSize : Int
  fileHash : String
  chunkSize : Int
  totalChunks : Nat
  chunks : List ChunkInfo
  owners : SSet
deriving DecidableEq

/-- The three authoritative tracker maps (`users`, `groups`, `files`). -/
structure TrackerState where
  users : SMap User
  groups : SMap Group
  files : SMap File
deriving DecidableEq

/-- The empty state a freshly started tracker begins with. -/
def initialTrackerState : TrackerState := { users := [], groups := [], files := [] }

/-- Wire message `{cmd, args}` from `types.go`. -/
structure Message where
  cmd : String
  args : List String
deriving DecidableEq

/-- The dynamic `data` payload of a tracker `Response`, one constructor per
payload shape the handlers produce. -/
inductive RData where
  | str (s : String)
  | strs (l : List String)
  | groupCreated (groupID owner message : String)
  | uploadAck (message fileName groupID : String) (fileSize : Int) (uploader : String)
      (hashInfo : Option (String × Nat))
  | fileEntries (l : List (String × Int × String))
  | fileInfoData (fileName fileHash : String) (fileSize chunkSize : Int)
      (totalChunks : Nat) (chunks : List ChunkInfo) (peers : List String)
deriving DecidableEq

/-- Wire response `{status, data}` from `types.go`. -/
structure Response where
  status : String
  data : RData
deriving DecidableEq

/-- Arguments of one `go broadcastToTrackers(cmd, args)` call. -/
abbrev Broadcast : Type := String × List String

/-- Result of running one tracker handler: `none` models a Go panic, and the
third component records the broadcasts the handler spawns. -/
abbrev HResult : Type := Option (Response × TrackerState × List Broadcast)

/-- `fmt.Sscanf(s, "%d", &n)` as used by `uploadFile`: skip leading spaces,
parse an optional sign and a digit run; when nothing parses the Go variable
keeps its zero value. -/
def goScanInt (s : String) : Int :=
  let chars := s.data.dropWhile (fun c => c = ' ')
  let signed : Bool × List Char :=
    match chars with
    | '-' :: rest => (true, rest)
    | '+' :: rest => (false, rest)
    | rest => (false, rest)
  let digits := signed.2.takeWhile Char.isDigit
  if digits.isEmpty then 0
  else
    let n : Nat := digits.foldl (fun acc c => acc * 10 + (c.toNat - '0'.toNat)) 0
    if signed.1 then -(n : Int) else (n : Int)

/-- `fileKey := groupID + ":" + fileName` from `handlers.go`. -/
def fileKey (groupID fileName : String) : String := groupID ++ ":" ++ fileName

/-! ## Tracker handlers (`handlers.go`) -/

/-- `createUser` from `handlers.go`. -/
def createUser (args : List String) (s : TrackerState) : HResult :=
  match args with
  | user :: pass :: _ =>
    match SMap.find s.users user with
    | some _ => some ({ status := "error", data := .str "user exists" }, s, [])
    | none =>
      let u : User := { userID := user, password := pass, loggedIn := false, addr := "" }
      some ({ status := "ok", data := .str "user created" },
        { s with users := SMap.set s.users user u },
        [("sync_create_user", [user, pass])])
  | _ => none

/-- `login` from `handlers.go`. -/
def login (args : List String) (s : TrackerState) : HResult :=
  match args with
  | user :: pass :: addr :: _ =>
    match SMap.find s.users user with
    | none => some ({ status := "error", data := .str "invalid credentials" }, s, [])
    | some u =>
      if u.password ≠ pass then
        some ({ status := "error", data := .str "invalid credentials" }, s, [])
      else
        let u' : User := { u with loggedIn := true, addr := addr }
        some ({ status := "ok", data := .str "logged in" },
          { s with users := SMap.set s.users user u' }, [])
  | _ => none

/-- `updateAddress` from `handlers.go`. -/
def updateAddress (args : List String) (s : TrackerState) : HResult :=
  match args with
  | user :: addr :: _ =>
    match SMap.find s.users user with
    | none => some ({ status := "error", data := .str "user not found" }, s, [])
    | some u =>
      if u.loggedIn = false then
        some ({ status := "error", data := .str "user not logged in" }, s, [])
      else
        let u' : User := { u with addr := addr }
        some ({ status := "ok", data := .str "address updated" },
          { s with users := SMap.set s.users user u' }, [])
  | _ => none

/-- `createGroup` from `handlers.go`. -/
def createGroup (args : List String) (s : TrackerState) : HResult :=
  match args with
  | groupID :: user :: _ =>
    match SMap.find s.groups groupID with
    | some _ => some ({ status := "error", data := .str "group exists" }, s, [])
    | none =>
      let g : Group := { groupID := groupID, owner := user, members := [user], pending := [] }
      some ({ status := "ok", data := .groupCreated groupID user "group created" },
        { s with groups := SMap.set s.groups groupID g },
        [("sync_create_group", [groupID, user])])
  | _ => none

/-- `joinGroup` from `handlers.go`.  Note: there is no membership check;
the user is put into `Pending` unconditionally. -/
def joinGroup (args : List String) (s : TrackerState) : HResult :=
  match args with
  | groupID :: userID :: _ =>
    match SMap.find s.groups groupID with
    | none => some ({ status := "error", data := .str "group not found" }, s, [])
    | some g =>
      let g' : Group := { g with pending := SSet.add g.pending userID }
      some ({ status := "ok", data := .str "request sent to the group" },
        { s with groups := SMap.set s.groups groupID g' },
        [("sync_join_group", [groupID, userID])])
  | _ => none

/-- `acceptRequest` from `handlers.go`.  `g := groups[groupID]` is read
without an existence check, so `g.Owner` dereferences a nil pointer
(panics, modelled as `none`) when the group is absent. -/
def acceptRequest (args : List String) (s : TrackerState) : HResult :=
  match args with
  | groupID :: owner :: userID :: _ =>
    match SMap.find s.groups groupID with
    | none => none
    | some g =>
      if g.owner ≠ owner then
        some ({ status := "error", data := .str "not owner" }, s, [])
      else
        let g' : Group := { g with pending := SSet.del g.pending userID,
                                   members := SSet.add g.members userID }
        some ({ status := "ok", data := .str "request accepted successfully" },
          { s with groups := SMap.set s.groups groupID g' },
          [("sync_accept_request", [groupID, userID])])
  | _ => none

/-- `listRequests` from `handlers.go`.  Like `acceptRequest` it reads
`groups[groupID]` without an existence check and panics on a missing
group. -/
def listRequests (args : List String) (s : TrackerState) : HResult :=
  match args with
  | groupID :: userID :: _ =>
    match SMap.find s.groups groupID with
    | none => none
    | some g =>
      if g.owner ≠ userID then
        some ({ status := "error", data := .str "not owner" }, s, [])
      else
        some ({ status := "ok", data := .strs g.pending }, s, [])
  | _ => none

/-- The body of `uploadFile` after the optional manifest arguments have been
read: group and membership checks, `(group_id, file_name)` uniqueness, record
creation.  `hasManifest` is `len(args) >= 6`, which gates the broadcast;
the response carries hash data only when `fileHash` is non-empty. -/
def uploadFileCore (args : List String) (fileName groupID userID fileSizeStr fileHash : String)
    (chunks : List ChunkInfo) (hasManifest : Bool) (s : TrackerState) : HResult :=
  match SMap.find s.groups groupID with
  | none => some ({ status := "error", data := .str "group not found" }, s, [])
  | some g =>
    if SSet.mem g.members userID = false then
      some ({ status := "error", data := .str "not a member" }, s, [])
    else
      match SMap.find s.files (fileKey groupID fileName) with
      | some _ => some ({ status := "error", data := .str "file already exists in group" }, s, [])
      | none =>
        let size : Int := goScanInt fileSizeStr
        let f : File := { fileName := fileName, groupID := groupID, uploader := userID,
                          fileSize := size, fileHash := fileHash, chunkSize := 512 * 1024,
                          totalChunks := chunks.length, chunks := chunks, owners := [userID] }
        some ({ status := "ok",
                data := .uploadAck "file uploaded successfully" fileName groupID size userID
                  (if fileHash ≠ "" then some (fileHash, chunks.length) else none) },
          { s with files := SMap.set s.files (fileKey groupID fileName) f },
          if hasManifest then [("sync_upload_file", args)] else [])

/-- `uploadFile` from `handlers.go`.  `decode` abstracts
`json.Unmarshal([]byte(chunksJSON), &chunks)`; `none` is a decode error.
The handler contains no `file_size > 0` check. -/
def uploadFile (decode : String → Option (List ChunkInfo)) (args : List String)
    (s : TrackerState) : HResult :=
  match args with
  | fileName :: groupID :: userID :: fileSizeStr :: fileHash :: chunksJSON :: _ =>
    match decode chunksJSON with
    | none => some ({ status := "error", data := .str "invalid chunk data" }, s, [])
    | some chunks =>
      uploadFileCore args fileName groupID userID fileSizeStr fileHash chunks true s
  | fileName :: groupID :: userID :: fileSizeStr :: _ =>
    uploadFileCore args fileName groupID userID fileSizeStr "" [] false s
  | _ => none

/-- `listFiles` from `handlers.go`: membership is enforced only when a
requesting user is supplied. -/
def listFiles (args : List String) (s : TrackerState) : HResult :=
  match args with
  | groupID :: rest =>
    let requestingUser := match rest with | u :: _ => u | [] => ""
    match SMap.find s.groups groupID with
    | none => some ({ status := "error", data := .str "group not found" }, s, [])
    | some g =>
      if requestingUser ≠ "" ∧ SSet.mem g.members requestingUser = false then
        some ({ status := "error", data := .str "not a member of this group" }, s, [])
      else
        let fileList := (SMap.vals s.files).filterMap (fun f =>
          if f.groupID = groupID then some (f.fileName, f.fileSize, f.uploader) else none)
        if fileList.isEmpty then
          some ({ status := "ok", data := .str "no files in group" }, s, [])
        else
          some ({ status := "ok", data := .fileEntries fileList }, s, [])
  | _ => none

/-- `getPeerAddresses` from `handlers.go`. -/
def getPeerAddresses (users : SMap User) (owners : SSet) : List String :=
  owners.filterMap (fun uid =>
    match SMap.find users uid with
    | some u => if u.loggedIn then some u.addr else none
    | none => none)

/-- `getFileInfo` from `handlers.go`. -/
def getFileInfo (args : List String) (s : TrackerState) : HResult :=
  match args with
  | groupID :: fileName :: _ =>
    match SMap.find s.files (fileKey groupID fileName) with
    | none => some ({ status := "error", data := .str "file not found" }, s, [])
    | some f =>
      some ({ status := "ok",
              data := .fileInfoData f.fileName f.fileHash f.fileSize f.chunkSize
                f.totalChunks f.chunks (getPeerAddresses s.users f.owners) }, s, [])
  | _ => none

/-- `listGroups` from `handlers.go`. -/
def listGroups (_args : List String) (s : TrackerState) : HResult :=
  if SMap.isEmpty s.groups then
    some ({ status := "ok", data := .str "no groups found" }, s, [])
  else
    some ({ status := "ok", data := .strs (SMap.keys s.groups) }, s, [])

/-- `stopSharing` from `handlers.go`: removes the user from `Owners` and
deletes the whole record when the set becomes empty. -/
def stopSharing (args : List String) (s : TrackerState) : HResult :=
  match args with
  | groupID :: fileName :: userID :: _ =>
    match SMap.find s.files (fileKey groupID fileName) with
    | none => some ({ status := "error", data := .str "file not found" }, s, [])
    | some f =>
      let owners' := SSet.del f.owners userID
      if owners'.isEmpty then
        some ({ status := "ok", data := .str "file removed from tracker (no owners)" },
          { s with files := SMap.del s.files (fileKey groupID fileName) },
          [("sync_stop_sharing", args)])
      else
        let f' : File := { f with owners := owners' }
        some ({ status := "ok", data := .str "stopped sharing" },
          { s with files := SMap.set s.files (fileKey groupID fileName) f' },
          [("sync_stop_sharing", args)])
  | _ => none

/-- `leaveGroup` from `handlers.go` (explicit argument-count check). -/
def leaveGroup (args : List String) (s : TrackerState) : HResult :=
  match args with
  | groupID :: userID :: _ =>
    match SMap.find s.groups groupID with
    | none => some ({ status := "error", data := .str "group not found" }, s, [])
    | some g =>
      if g.owner = userID then
        some ({ status := "error", data := .str "owner cannot leave the group" }, s, [])
      else if SSet.mem g.members userID = false then
        some ({ status := "error", data := .str "not a member" }, s, [])
      else
        let g' : Group := { g with members := SSet.del g.members userID }
        some ({ status := "ok", data := .str "left group" },
          { s with groups := SMap.set s.groups groupID g' },
          [("sync_leave_group", args)])
  | _ => some ({ status := "error", data := .str "leave_group: need groupID, userID" }, s, [])

/-- `addSeeder` from `handlers.go` (explicit argument-count check). -/
def addSeeder (args : List String) (s : TrackerState) : HResult :=
  match args with
  | groupID :: fileName :: userID :: _ =>
    match SMap.find s.files (fileKey groupID fileName) with
    | none => some ({ status := "error", data := .str "file not found" }, s, [])
    | some f =>
      match SMap.find s.groups groupID with
      | none => some ({ status := "error", data := .str "group not found" }, s, [])
      | some _ =>
        let f' : File := { f with owners := SSet.add f.owners userID }
        some ({ status := "ok", data := .str "registered as seeder" },
          { s with files := SMap.set s.files (fileKey groupID fileName) f' },
          [("sync_add_seeder", args)])
  | _ => some ({ status := "error", data := .str "add_seeder: need groupID, fileName, userID" },
      s, [])

/-! ## Gossip application (`sync.go`) -/

/-- `applySync` from `sync.go`: applies an inbound `sync_...` command.  Its
own comment promises application "WITHOUT re-broadcasting (prevents
infinite loops)", but the `sync_upload_file` and `sync_stop_sharing` cases
re-use `uploadFile` / `stopSharing`, whose broadcasts are recorded here in
the third component of the result. -/
def applySync (decode : String → Option (List ChunkInfo)) (cmd : String)
    (args : List String) (s : TrackerState) : HResult :=
  match cmd with
  | "sync_create_user" =>
    match args with
    | user :: pass :: _ =>
      match SMap.find s.users user with
      | some _ => some ({ status := "ok", data := .str "synced" }, s, [])
      | none =>
        let u : User := { userID := user, password := pass, loggedIn := false, addr := "" }
        some ({ status := "ok", data := .str "synced" },
          { s with users := SMap.set s.users user u }, [])
    | _ => some ({ status := "error", data := .str "sync_create_user: need user, pass" }, s, [])
  | "sync_create_group" =>
    match args with
    | groupID :: owner :: _ =>
      match SMap.find s.groups groupID with
      | some _ => some ({ status := "ok", data := .str "synced" }, s, [])
      | none =>
        let g : Group := { groupID := groupID, owner := owner, members := [owner], pending := [] }
        some ({ status := "ok", data := .str "synced" },
          { s with groups := SMap.set s.groups groupID g }, [])
    | _ => some ({ status := "error", data := .str "sync_create_group: need groupID, owner" }, s, [])
  | "sync_join_group" =>
    match args with
    | groupID :: userID :: _ =>
      match SMap.find s.groups groupID with
      | none => some ({ status := "ok", data := .str "synced" }, s, [])
      | some g =>
        let g' : Group := { g with pending := SSet.add g.pending userID }
        some ({ status := "ok", data := .str "synced" },
          { s with groups := SMap.set s.groups groupID g' }, [])
    | _ => some ({ status := "error", data := .str "sync_join_group: need groupID, userID" }, s, [])
  | "sync_accept_request" =>
    match args with
    | groupID :: userID :: _ =>
      match SMap.find s.groups groupID with
      | none => some ({ status := "ok", data := .str "synced" }, s, [])
      | some g =>
        let g' : Group := { g with pending := SSet.del g.pending userID,
                                   members := SSet.add g.members userID }
        some ({ status := "ok", data := .str "synced" },
          { s with groups := SMap.set s.groups groupID g' }, [])
    | _ => some ({ status := "error", data := .str "sync_accept_request: need groupID, userID" }, s, [])
  | "sync_upload_file" =>
    if args.length < 6 then
      some ({ status := "error", data := .str "sync_upload_file: insufficient args" }, s, [])
    else
      match uploadFile decode args s with
      | none => none
      | some (_, s', bc) => some ({ status := "ok", data := .str "synced" }, s', bc)
  | "sync_stop_sharing" =>
    if args.length < 3 then
      some ({ status := "error", data := .str "sync_stop_sharing: need groupID, fileName, userID" }, s, [])
    else
      match stopSharing args s with
      | none => none
      | some (_, s', bc) => some ({ status := "ok", data := .str "synced" }, s', bc)
  | "sync_leave_group" =>
    match args with
    | groupID :: userID :: _ =>
      match SMap.find s.groups groupID with
      | none => some ({ status := "ok", data := .str "synced" }, s, [])
      | some g =>
        let g' : Group := { g with members := SSet.del g.members userID }
        some ({ status := "ok", data := .str "synced" },
          { s with groups := SMap.set s.groups groupID g' }, [])
    | _ => some ({ status := "error", data := .str "sync_leave_group: need groupID, userID" }, s, [])
  | "sync_add_seeder" =>
    match args with
    | groupID :: fileName :: userID :: _ =>
      match SMap.find s.files (fileKey groupID fileName) with
      | none => some ({ status := "ok", data := .str "synced" }, s, [])
      | some f =>
        let f' : File := { f with owners := SSet.add f.owners userID }
        some ({ status := "ok", data := .str "synced" },
          { s with files := SMap.set s.files (fileKey groupID fileName) f' }, [])
    | _ => some ({ status := "error", data := .str "sync_add_seeder: need groupID, fileName, userID" }, s, [])
  | _ => some ({ status := "error", data := .str "unknown sync command" }, s, [])

/-! ## Requests and reachable tracker states -/

/-- One inbound tracker request, as dispatched by the connection handler. -/
inductive Req where
  | rCreateUser (args : List String)
  | rLogin (args : List String)
  | rUpdateAddress (args : List String)
  | rCreateGroup (args : List String)
  | rJoinGroup (args : List String)
  | rAcceptRequest (args : List String)
  | rListRequests (args : List String)
  | rUploadFile (args : List String)
  | rListFiles (args : List String)
  | rGetFileInfo (args : List String)
  | rListGroups (args : List String)
  | rStopSharing (args : List String)
  | rLeaveGroup (args : List String)
  | rAddSeeder (args : List String)
  | rSync (cmd : String) (args : List String)
deriving DecidableEq

/-- Dispatch of one request to its handler (the `switch msg.Cmd` of the
tracker's `handleConn`, with the `sync_...` cases routed to `applySync`). -/
def applyReq (decode : String → Option (List ChunkInfo)) (r : Req)
    (s : TrackerState) : HResult :=
  match r with
  | .rCreateUser args => createUser args s
  | .rLogin args => login args s
  | .rUpdateAddress args => updateAddress args s
  | .rCreateGroup args => createGroup args s
  | .rJoinGroup args => joinGroup args s
  | .rAcceptRequest args => acceptRequest args s
  | .rListRequests args => listRequests args s
  | .rUploadFile args => uploadFile decode args s
  | .rListFiles args => listFiles args s
  | .rGetFileInfo args => getFileInfo args s
  | .rListGroups args => listGroups args s
  | .rStopSharing args => stopSharing args s
  | .rLeaveGroup args => leaveGroup args s
  | .rAddSeeder args => addSeeder args s
  | .rSync cmd args => applySync decode cmd args s

/-- Whether a request comes from a client (as opposed to tracker gossip). -/
def Req.isClient : Req → Bool
  | .rSync _ _ => false
  | _ => true

/-- Tracker states reachable from the empty initial state by any sequence of
requests, client or gossip, that complete without panicking. -/
inductive Reach (decode : String → Option (List ChunkInfo)) : TrackerState → Prop where
  | init : Reach decode initialTrackerState
  | step {s : TrackerState} {r : Req} {resp : Response} {s' : TrackerState}
      {bc : List Broadcast} :
      Reach decode s → applyReq decode r s = some (resp, s', bc) → Reach decode s'

/-- Tracker states reachable from the empty initial state by client requests
alone (no gossip). -/
inductive ReachClient (decode : String → Option (List ChunkInfo)) : TrackerState → Prop where
  | init : ReachClient decode initialTrackerState
  | step {s : TrackerState} {r : Req} {resp : Response} {s' : TrackerState}
      {bc : List Broadcast} :
      ReachClient decode s → r.isClient = true →
      applyReq decode r s = some (resp, s', bc) → ReachClient decode s'


/-! ## Client chunker (`chunk.go`) -/

/-- File contents are byte lists; byte values are only carried and hashed. -/
abbrev Byte : Type := Nat

/-- `ChunkSize = 512 * 1024` from `chunk.go`. -/
def ChunkSize : Nat := 512 * 1024

/-- `ChunkMetadata` from `chunk.go`. -/
structure ChunkMetadata where
  fileName : String
  fileSize : Int
  fileHash : String
  chunkSize : Int
  totalChunks : Nat
  chunks : List ChunkInfo
deriving DecidableEq

/-- `ChunkFile` from `chunk.go`, over in-memory file contents.  `sha` is the
SHA-256 hex digest function; the I/O error paths (`os.Stat`, `os.Open`,
`file.Read`) cannot fail on in-memory contents, and the function has no
other error return: in particular there is no empty-file check, so a
zero-byte file yields `Except.ok` with `totalChunks = 0`.  Each loop
iteration reads the next `min ChunkSize remaining` bytes. -/
def chunkFile (sha : List Byte → String) (filePath : String) (content : List Byte) :
    Except String ChunkMetadata :=
  let fileSize := content.length
  let totalChunks := (fileSize + ChunkSize - 1) / ChunkSize
  Except.ok
    { fileName := filePath
      fileSize := Int.ofNat fileSize
      fileHash := sha content
      chunkSize := Int.ofNat ChunkSize
      totalChunks := totalChunks
      chunks := (List.range totalChunks).map (fun i =>
        let data := (content.drop (i * ChunkSize)).take ChunkSize
        { index := Int.ofNat i, hash := sha data, size := Int.ofNat data.length }) }

/-! ## Client tracker connector (`tracker_conn.go`) -/

/-- The candidate order built by `SendToTracker`: every active tracker first
(each marked in `seen`), then every configured address not marked. -/
def candidateTrackers (activeTrackers trackerAddrs : List String) : List String :=
  activeTrackers ++ trackerAddrs.filter (fun a => decide (a ∉ activeTrackers))

/-- The retry loop of `SendToTracker`: `net` is the `tryTracker` oracle
(`none` models a dial/send/receive failure); the first successful response
is returned, and the fallback error closes the loop. -/
def firstTrackerResponse (net : String → Option Response) : List String → Response
  | [] => { status := "error", data := .str "no trackers available" }
  | addr :: rest =>
    match net addr with
    | some resp => resp
    | none => firstTrackerResponse net rest

/-- `SendToTracker` from `tracker_conn.go`. -/
def sendToTracker (net : String → Option Response)
    (activeTrackers trackerAddrs : List String) : Response :=
  firstTrackerResponse net (candidateTrackers activeTrackers trackerAddrs)

/-! ## Client download engine (`download.go`) -/

/-- `FileInfo` from `download.go` (the parsed `get_file_info` payload). -/
structure PeerFileInfo where
  fileName : String
  fileHash : String
  fileSize : Int
  chunkSize : Int
  totalChunks : Nat
  chunks : List ChunkInfo
  peers : List String
deriving DecidableEq

/-- The local chunk directory `.chunks/<file_hash>/`: chunk index to the
bytes of `chunk_<i>.dat`. -/
abbrev Disk : Type := List (Nat × List Byte)

/-- `os.Stat(chunk_<i>.dat)` succeeding / `os.ReadFile` contents. -/
def diskRead : Disk → Nat → Option (List Byte)
  | [], _ => none
  | (j, data) :: rest, i => if j = i then some data else diskRead rest i

/-- Whether `chunk_<i>.dat` exists (the resume check). -/
def diskHas (d : Disk) (i : Nat) : Bool := (diskRead d i).isSome

/-- `os.WriteFile(chunk_<i>.dat, data)`. -/
def diskWrite : Disk → Nat → List Byte → Disk
  | [], i, data => [(i, data)]
  | (j, old) :: rest, i, data =>
    if j = i then (i, data) :: rest else (j, old) :: diskWrite rest i data

/-- The per-peer bitfields collected before a rarest-first download; `none`
is a peer with unknown bitfield ("assume it has all chunks"). -/
abbrev PeerBitfields : Type := List (String × Option (List Bool))

/-- `getBitfields` from `download.go`: peers answering with a bitfield are
recorded; if none answered, every peer is recorded with an unknown
bitfield. -/
def getBitfields (oracle : String → Option (List Bool)) (peers : List String) :
    PeerBitfields :=
  let result := peers.filterMap (fun p => (oracle p).map (fun bf => (p, some bf)))
  if result.isEmpty then peers.map (fun p => (p, none)) else result

/-- The per-chunk availability count of `buildRarityOrder`: each peer with an
unknown bitfield counts for every chunk; a known bitfield counts chunk `i`
when `i < len(bf) && bf[i]` (`List.getD i false` is exactly that guard). -/
def chunkCount (bfs : PeerBitfields) (i : Nat) : Nat :=
  bfs.foldl (fun acc pb =>
    match pb.2 with
    | none => acc + 1
    | some bf => if bf.getD i false then acc + 1 else acc) 0

/-- The order `sort.SliceStable` establishes in `buildRarityOrder`: by
ascending count, ties by ascending chunk index.  On the duplicate-free
index list the comparator never ties, so the sorted result is the unique
permutation sorted under this reflexive closure, independent of the
sorting algorithm. -/
def rarityLE (bfs : PeerBitfields) (a b : Nat) : Prop :=
  chunkCount bfs a < chunkCount bfs b ∨ (chunkCount bfs a = chunkCount bfs b ∧ a ≤ b)

instance (bfs : PeerBitfields) : DecidableRel (rarityLE bfs) := fun a b =>
  decidable_of_iff
    (chunkCount bfs a < chunkCount bfs b ∨ (chunkCount bfs a = chunkCount bfs b ∧ a ≤ b))
    Iff.rfl

instance (bfs : PeerBitfields) : IsTotal Nat (rarityLE bfs) where
  total a b := by
    unfold rarityLE
    omega

instance (bfs : PeerBitfields) : IsTrans Nat (rarityLE bfs) where
  trans a b c hab hbc := by
    unfold rarityLE at hab hbc ⊢
    omega

/-- `buildRarityOrder` from `download.go`. -/
def buildRarityOrder (bfs : PeerBitfields) (totalChunks : Nat) : List Nat :=
  List.insertionSort (rarityLE bfs) (List.range totalChunks)

/-- Peer selection for chunk `i` inside the download loop: in rarest-first
mode peers whose bitfield covers `i` (or is unknown) qualify, falling back
to the full peer list; in sequential mode round-robin over `peers`. -/
def pickPeer (peerBitfields : Option PeerBitfields) (peers : List String) (i : Nat) :
    String :=
  match peerBitfields with
  | none => peers.getD (i % peers.length) ""
  | some bfs =>
    let qualified := bfs.filterMap (fun pb =>
      match pb.2 with
      | none => some pb.1
      | some bf => if bf.getD i false then some pb.1 else none)
    if qualified.isEmpty then peers.getD (i % peers.length) ""
    else qualified.getD (i % qualified.length) ""

/-- Outcome of one `DownloadFile` run. -/
inductive DlResult where
  | panic
  | err (msg : String)
  | ok (disk : Disk) (downloaded skipped : Nat) (dest : List Byte)
deriving DecidableEq

/-- Outcome of the chunk loop of `DownloadFile`. -/
inductive LoopOut where
  | panic
  | fail (msg : String)
  | done (disk : Disk) (downloaded skipped : Nat)
deriving DecidableEq

/-- The chunk loop of `DownloadFile`: for each index in `order`, skip when
`chunk_<i>.dat` exists, otherwise pick a peer, fetch (`requestChunk`,
abstracted by `fetch`; `none` is a failed handshake/transfer), verify the
SHA-256 against `chunks[i].hash` (a Go panic when `i` is out of range of
the manifest) and write the chunk to disk. -/
def downloadChunks (sha : List Byte → String) (fetch : String → Nat → Option (List Byte))
    (peerBitfields : Option PeerBitfields) (chunks : List ChunkInfo)
    (peers : List String) :
    List Nat → Disk → Nat → Nat → LoopOut
  | [], disk, downloaded, skipped => .done disk downloaded skipped
  | i :: rest, disk, downloaded, skipped =>
    if diskHas disk i then
      downloadChunks sha fetch peerBitfields chunks peers rest disk downloaded (skipped + 1)
    else
      match fetch (pickPeer peerBitfields peers i) i with
      | none => .fail ("failed to download chunk " ++ toString i)
      | some data =>
        match chunks.get? i with
        | none => .panic
        | some c =>
          if sha data ≠ c.hash then
            .fail ("chunk " ++ toString i ++ " hash mismatch")
          else
            downloadChunks sha fetch peerBitfields chunks peers rest
              (diskWrite disk i data) (downloaded + 1) skipped

/-- `assembleFileFromDisk` from `download.go`: concatenate
`chunk_0.dat ... chunk_{N-1}.dat`; a missing chunk is an error (`none`). -/
def assembleFromDisk (disk : Disk) : List Nat → Option (List Byte)
  | [] => some []
  | i :: rest =>
    match diskRead disk i with
    | none => none
    | some data => (assembleFromDisk disk rest).map (fun tail => data ++ tail)

/-- `DownloadFile` from `download.go`, over a supplied `get_file_info`
payload: fail when `peers` is empty, choose rarest-first or sequential
order, run the chunk loop, then assemble the destination file from disk
(the `metadata.json` write has no further observable effect here). -/
def downloadFile (sha : List Byte → String) (fetch : String → Nat → Option (List Byte))
    (bfOracle : String → Option (List Bool)) (rarest : Bool)
    (info : PeerFileInfo) (disk : Disk) : DlResult :=
  if info.peers.isEmpty then .err "no peers available for download"
  else
    let peerBitfields : Option PeerBitfields :=
      if rarest then some (getBitfields bfOracle info.peers) else none
    let order : List Nat :=
      match peerBitfields with
      | some bfs => buildRarityOrder bfs info.totalChunks
      | none => List.range info.totalChunks
    match downloadChunks sha fetch peerBitfields info.chunks info.peers order disk 0 0 with
    | .panic => .panic
    | .fail msg => .err msg
    | .done disk' downloaded skipped =>
      match assembleFromDisk disk' (List.range info.totalChunks) with
      | none => .err "failed to assemble file"
      | some dest => .ok disk' downloaded skipped dest

/-- Modelled from the spec: the post-download seeder registration.  The
client entry point that issues `add_seeder(group_id, file_name, user)`
after a successful `DownloadFile` is not among the provided sources (only
older client revisions without it are), while the spec states "Finally,
the client calls add_seeder(group_id, file_name, user)", the tracker-side
`addSeeder` handler and its gossip path exist, and the repository's test
suites rely on the promotion.  This wrapper records the tracker request the
client issues after a successful download. -/
def downloadAndSeed (sha : List Byte → String) (fetch : String → Nat → Option (List Byte))
    (bfOracle : String → Option (List Bool)) (rarest : Bool)
    (info : PeerFileInfo) (disk : Disk) (groupID fileName user : String) :
    DlResult × List Message :=
  match downloadFile sha fetch bfOracle rarest info disk with
  | .ok d dl sk dest => (.ok d dl sk dest, [{ cmd := "add_seeder", args := [groupID, fileName, user] }])
  | r => (r, [])

/-- Modelled from the spec: dispatch of the `add_seeder` command by the
tracker connection handler.  The provided `handleConn` revision predates
the `add_seeder` case (its `switch` ends at `stop_sharing` and the sync
commands) although the handler, its gossip application and the test suites
use the command; per the spec's command table, a request whose `cmd` is
`add_seeder` is dispatched to the `addSeeder` handler. -/
def dispatchAddSeeder (m : Message) (s : TrackerState) : HResult :=
  if m.cmd = "add_seeder" then addSeeder m.args s
  else some ({ status := "error", data := .str "unkown command" }, s, [])

/-! ## Concrete states and decoders used in the claim theorems -/

/-- A concrete chunk-manifest decoder accepting the JSON text of the empty
manifest (enough to exercise `uploadFile` on concrete inputs). -/
def decodeEmptyOnly : String → Option (List ChunkInfo) :=
  fun s => if s = "[]" then some [] else none

/-- The state after `create_user alice`, `create_group g` and the upload of
a zero-byte file `empty.bin` (size argument "0", empty manifest). -/
def c1StateAfterUpload : TrackerState :=
  { users := [("alice", { userID := "alice", password := "pw", loggedIn := false, addr := "" })]
    groups := [("g", { groupID := "g", owner := "alice", members := ["alice"], pending := [] })]
    files := [("g:empty.bin",
      { fileName := "empty.bin", groupID := "g", uploader := "alice", fileSize := 0,
        fileHash := "h", chunkSize := 512 * 1024, totalChunks := 0, chunks := [],
        owners := ["alice"] })] }

/-- A state with group `g` (owner alice) and file `g:f` owned by `a` and `b`. -/
def c3StateWithFile : TrackerState :=
  { users := []
    groups := [("g", { groupID := "g", owner := "alice", members := ["alice"], pending := [] })]
    files := [("g:f",
      { fileName := "f", groupID := "g", uploader := "a", fileSize := 5,
        fileHash := "h", chunkSize := 512 * 1024, totalChunks := 1,
        chunks := [{ index := 0, hash := "ch", size := 5 }], owners := ["a", "b"] })] }

/-- A state with group `g` (owner alice) and no files. -/
def c3StateNoFile : TrackerState :=
  { users := []
    groups := [("g", { groupID := "g", owner := "alice", members := ["alice"], pending := [] })]
    files := [] }

/-- The reachable state after `create_group g alice`. -/
def c4StateOwnerOnly : TrackerState :=
  { users := []
    groups := [("g", { groupID := "g", owner := "alice", members := ["alice"], pending := [] })]
    files := [] }

/-- The state after the owner alice then sends `join_group g`. -/
def c4StateAfterJoin : TrackerState :=
  { users := []
    groups := [("g",
      { groupID := "g", owner := "alice", members := ["alice"], pending := ["alice"] })]
    files := [] }

/-- The file names a `list_files` response displays. -/
def listedNames : RData → List String
  | .fileEntries l => l.map (fun e => e.1)
  | _ => []

/-- The reachable state holding user alice, group `g` and the file
`f.bin` (5 bytes) uploaded by alice. -/
def c6StateWithFile : TrackerState :=
  { users := [("alice", { userID := "alice", password := "pw", loggedIn := false, addr := "" })]
    groups := [("g", { groupID := "g", owner := "alice", members := ["alice"], pending := [] })]
    files := [("g:f.bin",
      { fileName := "f.bin", groupID := "g", uploader := "alice", fileSize := 5,
        fileHash := "h", chunkSize := 512 * 1024, totalChunks := 0, chunks := [],
        owners := ["alice"] })] }

/-- The state after the sole owner alice stops sharing `f.bin`. -/
def c6StateAfterStop : TrackerState :=
  { users := [("alice", { userID := "alice", password := "pw", loggedIn := false, addr := "" })]
    groups := [("g", { groupID := "g", owner := "alice", members := ["alice"], pending := [] })]
    files := [] }

/-- A one-chunk `get_file_info` payload with one peer, used on concrete runs. -/
def c2InfoW : PeerFileInfo :=
  { fileName := "f.bin", fileHash := "fh", fileSize := 1,
    chunkSize := Int.ofNat ChunkSize, totalChunks := 1,
    chunks := [{ index := 0, hash := "h", size := 1 }], peers := ["p"] }

/-- The file-store invariant: every stored file record has a non-empty
owners set, sits under the key `groupID + ":" + fileName` built from its
own fields, and its group exists. -/
def FilesInv (s : TrackerState) : Prop :=
  ∀ p : String × File, p ∈ s.files →
    p.2.owners ≠ [] ∧ p.1 = fileKey p.2.groupID p.2.fileName ∧
    (SMap.find s.groups p.2.groupID).isSome = true

/-- The group invariant: every group's owner is one of its members. -/
def OwnersInMembersInv (s : TrackerState) : Prop :=
  ∀ g gr, SMap.find s.groups g = some gr → SSet.mem gr.members gr.owner = true

/-! ## Basic lemmas about the map and set models -/

/-- Every client-reachable state is reachable. -/
theorem ReachClient.toReach {decode : String → Option (List ChunkInfo)}
    {s : TrackerState} (h : ReachClient decode s) : Reach decode s := by
  induction h with
  | init => exact .init
  | step _ _ happ ih => exact .step ih happ

theorem SMap.find_set {α : Type} (m : SMap α) (k k' : String) (v : α) :
    SMap.find (SMap.set m k v) k' = if k = k' then some v else SMap.find m k' := by
  induction m with
  | nil => simp [SMap.set, SMap.find]
  | cons p rest ih =>
    obtain ⟨k₀, v₀⟩ := p
    by_cases h₀ : k₀ = k
    · subst h₀
      by_cases h₁ : k₀ = k'
      · subst h₁; simp [SMap.set, SMap.find]
      · simp [SMap.set, SMap.find, h₁]
    · by_cases h₁ : k₀ = k'
      · subst h₁
        have hne : ¬ k = k₀ := fun h => h₀ h.symm
        simp [SMap.set, SMap.find, h₀, hne]
      · simp [SMap.set, SMap.find, h₀, h₁, ih]

theorem SMap.find_del {α : Type} (m : SMap α) (k k' : String) :
    SMap.find (SMap.del m k) k' = if k = k' then none else SMap.find m k' := by
  induction m with
  | nil => simp [SMap.del, SMap.find]
  | cons p rest ih =>
    obtain ⟨k₀, v₀⟩ := p
    by_cases h₀ : k₀ = k
    · subst h₀
      by_cases h₁ : k₀ = k'
      · subst h₁; simpa [SMap.del, SMap.find] using ih
      · simpa [SMap.del, SMap.find, h₁] using ih
    · by_cases h₁ : k₀ = k'
      · subst h₁
        have hne : ¬ k = k₀ := fun h => h₀ h.symm
        simp [SMap.del, SMap.find, h₀, hne]
      · simp [SMap.del, SMap.find, h₀, h₁, ih]

theorem SMap.set_set_same {α : Type} (m : SMap α) (k : String) (v : α) :
    SMap.set (SMap.set m k v) k v = SMap.set m k v := by
  induction m with
  | nil => simp [SMap.set]
  | cons p rest ih =>
    obtain ⟨k₀, v₀⟩ := p
    by_cases h₀ : k₀ = k
    · subst h₀; simp [SMap.set]
    · simp [SMap.set, h₀, ih]

theorem SMap.mem_set {α : Type} {m : SMap α} {k : String} {v : α}
    {p : String × α} (h : p ∈ SMap.set m k v) : p ∈ m ∨ p = (k, v) := by
  induction m with
  | nil =>
    simp [SMap.set] at h
    simp [h]
  | cons q rest ih =>
    obtain ⟨k₀, v₀⟩ := q
    by_cases h₀ : k₀ = k
    · rw [SMap.set, if_pos h₀] at h
      rcases List.mem_cons.mp h with h | h
      · exact Or.inr h
      · exact Or.inl (List.mem_cons_of_mem _ h)
    · rw [SMap.set, if_neg h₀] at h
      rcases List.mem_cons.mp h with h | h
      · exact Or.inl (by simp [h])
      · rcases ih h with h | h
        · exact Or.inl (List.mem_cons_of_mem _ h)
        · exact Or.inr h

theorem SMap.mem_del {α : Type} {m : SMap α} {k : String}
    {p : String × α} (h : p ∈ SMap.del m k) : p ∈ m := by
  induction m with
  | nil => simp [SMap.del] at h
  | cons q rest ih =>
    obtain ⟨k₀, v₀⟩ := q
    by_cases h₀ : k₀ = k
    · rw [SMap.del, if_pos h₀] at h
      exact List.mem_cons_of_mem _ (ih h)
    · rw [SMap.del, if_neg h₀] at h
      rcases List.mem_cons.mp h with h | h
      · exact List.mem_cons.mpr (Or.inl h)
      · exact List.mem_cons_of_mem _ (ih h)

theorem SMap.find_mem {α : Type} {m : SMap α} {k : String} {v : α}
    (h : SMap.find m k = some v) : (k, v) ∈ m := by
  induction m with
  | nil => simp [SMap.find] at h
  | cons q rest ih =>
    obtain ⟨k₀, v₀⟩ := q
    by_cases h₀ : k₀ = k
    · rw [SMap.find, if_pos h₀] at h
      injection h with h
      subst h₀ h
      exact List.mem_cons_self _ _
    · rw [SMap.find, if_neg h₀] at h
      exact List.mem_cons_of_mem _ (ih h)

theorem SMap.find_none_of_not_mem {α : Type} {m : SMap α} {k : String}
    (h : SMap.find m k = none) : ∀ v : α, (k, v) ∉ m := by
  induction m with
  | nil => simp
  | cons q rest ih =>
    obtain ⟨k₀, v₀⟩ := q
    by_cases h₀ : k₀ = k
    · rw [SMap.find, if_pos h₀] at h
      simp at h
    · rw [SMap.find, if_neg h₀] at h
      intro v hv
      rcases List.mem_cons.mp hv with hv | hv
      · exact h₀ (congrArg Prod.fst hv).symm
      · exact ih h v hv

theorem SSet.mem_add_self (s : SSet) (k : String) : SSet.mem (SSet.add s k) k = true := by
  unfold SSet.add
  by_cases h : SSet.mem s k = true
  · rw [if_pos h]
    exact h
  · rw [if_neg h, SSet.mem, if_pos rfl]

theorem SSet.mem_add_of_mem {s : SSet} {x : String} (k : String)
    (h : SSet.mem s x = true) : SSet.mem (SSet.add s k) x = true := by
  unfold SSet.add
  by_cases hk : SSet.mem s k = true
  · rw [if_pos hk]
    exact h
  · rw [if_neg hk, SSet.mem]
    by_cases hkx : k = x
    · rw [if_pos hkx]
    · rw [if_neg hkx]
      exact h

theorem SSet.add_ne_nil (s : SSet) (k : String) : SSet.add s k ≠ [] := by
  unfold SSet.add
  by_cases h : SSet.mem s k = true
  · rw [if_pos h]
    intro hnil
    subst hnil
    simp [SSet.mem] at h
  · rw [if_neg h]
    simp

theorem SSet.add_idem (s : SSet) (k : String) :
    SSet.add (SSet.add s k) k = SSet.add s k := by
  by_cases h : SSet.mem s k = true
  · unfold SSet.add
    rw [if_pos h, if_pos h]
  · unfold SSet.add
    rw [if_neg h]
    have hk : SSet.mem (k :: s) k = true := by rw [SSet.mem, if_pos rfl]
    rw [if_pos hk]

theorem SSet.mem_del_of_ne {s : SSet} {x k : String} (hne : x ≠ k) :
    SSet.mem (SSet.del s k) x = SSet.mem s x := by
  induction s with
  | nil => simp [SSet.del]
  | cons y rest ih =>
    by_cases hy : y = k
    · have hyx : ¬ y = x := fun hcontr => hne (hcontr ▸ hy)
      rw [SSet.del, if_pos hy, ih, SSet.mem, if_neg hyx]
    · by_cases hyx : y = x
      · rw [SSet.del, if_neg hy, SSet.mem, if_pos hyx, SSet.mem, if_pos hyx]
      · rw [SSet.del, if_neg hy, SSet.mem, if_neg hyx, SSet.mem, if_neg hyx, ih]

/-! ## C9: client tracker failover -/

theorem firstTrackerResponse_all_fail (net : String → Option Response)
    (l : List String) (h : ∀ a ∈ l, net a = none) :
    firstTrackerResponse net l = { status := "error", data := .str "no trackers available" } := by
  induction l with
  | nil => rfl
  | cons a rest ih =>
    rw [firstTrackerResponse, h a (List.mem_cons_self a rest)]
    exact ih (fun b hb => h b (List.mem_cons_of_mem a hb))

theorem firstTrackerResponse_first_success (net : String → Option Response)
    (l : List String) (r : Response) (h : l.findSome? net = some r) :
    firstTrackerResponse net l = r := by
  induction l with
  | nil => simp [List.findSome?] at h
  | cons a rest ih =>
    rw [firstTrackerResponse]
    rw [List.findSome?_cons] at h
    cases hna : net a with
    | some resp =>
      rw [hna] at h
      injection h
    | none =>
      rw [hna] at h
      exact ih h

/-- C9: `SendToTracker` tries the active trackers first and then the
remaining configured addresses (`candidateTrackers` is exactly that list),
returns the first successful response among the candidates, and produces
the `{status: "error", data: "no trackers available"}` response when every
candidate fails. -/
theorem c9_sendToTracker_failover (net : String → Option Response)
    (active config : List String) :
    candidateTrackers active config
        = active ++ config.filter (fun a => decide (a ∉ active)) ∧
    (∀ r : Response, (candidateTrackers active config).findSome? net = some r →
        sendToTracker net active config = r) ∧
    ((∀ a ∈ candidateTrackers active config, net a = none) →
        sendToTracker net active config
          = { status := "error", data := .str "no trackers available" }) := by
  refine ⟨rfl, ?_, ?_⟩
  · intro r hr
    exact firstTrackerResponse_first_success net _ r hr
  · intro hfail
    exact firstTrackerResponse_all_fail net _ hfail

/-- Witness for C9: with active tracker `t1` down and configured tracker
`t2` answering, the answer of `t2` is returned; with every tracker down the
fallback error is returned. -/
theorem c9_sendToTracker_failover_witness :
    sendToTracker
        (fun a => if a = "t2" then some { status := "ok", data := .str "pong" } else none)
        ["t1"] ["t1", "t2"]
      = { status := "ok", data := .str "pong" } ∧
    sendToTracker (fun _ => none) ["t1"] ["t1", "t2"]
      = { status := "error", data := .str "no trackers available" } := by
  constructor
  · exact (c9_sendToTracker_failover
      (fun a => if a = "t2" then some { status := "ok", data := .str "pong" } else none)
      ["t1"] ["t1", "t2"]).2.1 _ (by decide)
  · exact (c9_sendToTracker_failover (fun _ => none) ["t1"] ["t1", "t2"]).2.2
      (fun a _ => rfl)

/-! ## C5: rarest-first ordering -/

theorem chunkCount_foldl_shift (bfs : PeerBitfields) (i a : Nat) :
    bfs.foldl (fun acc pb =>
      match pb.2 with
      | none => acc + 1
      | some bf => if bf.getD i false then acc + 1 else acc) a
    = chunkCount bfs i + a := by
  induction bfs generalizing a with
  | nil => simp [chunkCount]
  | cons pb rest ih =>
    obtain ⟨nm, bf⟩ := pb
    rw [chunkCount, List.foldl_cons, List.foldl_cons, ih, ih]
    cases bf with
    | none =>
      show chunkCount rest i + (a + 1) = chunkCount rest i + (0 + 1) + a
      omega
    | some l =>
      by_cases hg : l.getD i false = true
      · show chunkCount rest i
            + (if l.getD i false = true then a + 1 else a)
          = chunkCount rest i + (if l.getD i false = true then 0 + 1 else 0) + a
        rw [if_pos hg, if_pos hg]
        omega
      · show chunkCount rest i
            + (if l.getD i false = true then a + 1 else a)
          = chunkCount rest i + (if l.getD i false = true then 0 + 1 else 0) + a
        rw [if_neg hg, if_neg hg]
        omega

theorem buildRarityOrder_perm (bfs : PeerBitfields) (totalChunks : Nat) :
    (buildRarityOrder bfs totalChunks).Perm (List.range totalChunks) :=
  List.perm_insertionSort (rarityLE bfs) (List.range totalChunks)

theorem buildRarityOrder_sorted (bfs : PeerBitfields) (totalChunks : Nat) :
    List.Sorted (rarityLE bfs) (buildRarityOrder bfs totalChunks) :=
  List.sorted_insertionSort (rarityLE bfs) (List.range totalChunks)

/-- C5: `buildRarityOrder` returns a permutation of the chunk indices
`0 .. totalChunks - 1`, sorted ascending by the number of peers holding
each chunk with ties broken by ascending index (the order `rarityLE`), and
a peer with an unknown (`nil`) bitfield raises every chunk's count by one,
i.e. is counted as holding every chunk. -/
theorem c5_buildRarityOrder_spec (bfs : PeerBitfields) (totalChunks : Nat) :
    (buildRarityOrder bfs totalChunks).Perm (List.range totalChunks) ∧
    List.Sorted (rarityLE bfs) (buildRarityOrder bfs totalChunks) ∧
    (∀ (p : String) (i : Nat), chunkCount ((p, none) :: bfs) i = chunkCount bfs i + 1) := by
  refine ⟨buildRarityOrder_perm bfs totalChunks, buildRarityOrder_sorted bfs totalChunks, ?_⟩
  intro p i
  rw [chunkCount, List.foldl_cons]
  exact chunkCount_foldl_shift bfs i 1

/-! ## C7: chunk manifest arithmetic -/

theorem chunk_data_length (content : List Byte) (i : Nat) :
    ((content.drop (i * ChunkSize)).take ChunkSize).length
      = min ChunkSize (content.length - i * ChunkSize) := by
  simp [List.length_take, List.length_drop]

theorem sum_map_ofNat (l : List Nat) :
    (l.map (fun n => Int.ofNat n)).sum = Int.ofNat l.sum := by
  induction l with
  | nil => rfl
  | cons x xs ih => simp [List.map_cons, List.sum_cons, ih, Int.ofNat_add]

theorem chunkSizes_sum (T : Nat) : ∀ S : Nat, T = (S + ChunkSize - 1) / ChunkSize →
    ((List.range T).map (fun i => min ChunkSize (S - i * ChunkSize))).sum = S := by
  induction T with
  | zero =>
    intro S hS
    have hz : S = 0 := by
      unfold ChunkSize at hS
      omega
    subst hz
    simp
  | succ T ih =>
    intro S hT
    rw [List.range_succ_eq_map, List.map_cons, List.sum_cons, List.map_map]
    have h1 : ((fun i => min ChunkSize (S - i * ChunkSize)) ∘ Nat.succ)
        = (fun i => min ChunkSize ((S - ChunkSize) - i * ChunkSize)) := by
      funext i
      show min ChunkSize (S - (Nat.succ i) * ChunkSize)
        = min ChunkSize ((S - ChunkSize) - i * ChunkSize)
      unfold ChunkSize
      omega
    rw [h1, ih (S - ChunkSize) (by unfold ChunkSize at hT ⊢; omega)]
    have hle : 0 < S := by
      unfold ChunkSize at hT
      omega
    unfold ChunkSize at hT ⊢
    omega

/-- C7: for a file of size `S > 0`, the `ChunkFile` manifest has
`total_chunks = ceil(S / 524288)` entries, every chunk is at most
524288 bytes, only the last chunk may be smaller, the chunk sizes sum to
`S`, and when `524288 ∣ S` there are exactly `S / 524288` chunks, all of
size 524288. -/
theorem c7_chunkFile_manifest (sha : List Byte → String) (path : String)
    (content : List Byte) (hpos : 0 < content.length) (m : ChunkMetadata)
    (hm : chunkFile sha path content = .ok m) :
    m.totalChunks = (content.length + ChunkSize - 1) / ChunkSize ∧
    m.chunks.length = m.totalChunks ∧
    (∀ c ∈ m.chunks, c.size ≤ Int.ofNat ChunkSize) ∧
    (∀ i c, m.chunks.get? i = some c → i + 1 < m.chunks.length →
        c.size = Int.ofNat ChunkSize) ∧
    (m.chunks.map (fun c => c.size)).sum = m.fileSize ∧
    (ChunkSize ∣ content.length →
        m.totalChunks = content.length / ChunkSize ∧
        ∀ c ∈ m.chunks, c.size = Int.ofNat ChunkSize) := by
  have hmv : m = { fileName := path
                   fileSize := Int.ofNat content.length
                   fileHash := sha content
                   chunkSize := Int.ofNat ChunkSize
                   totalChunks := (content.length + ChunkSize - 1) / ChunkSize
                   chunks := (List.range ((content.length + ChunkSize - 1) / ChunkSize)).map
                     (fun i =>
                       let data := (content.drop (i * ChunkSize)).take ChunkSize
                       { index := Int.ofNat i, hash := sha data,
                         size := Int.ofNat data.length }) } := by
    have := hm
    unfold chunkFile at this
    injection this with h
    exact h.symm
  subst hmv
  set S := content.length with hS
  set T := (S + ChunkSize - 1) / ChunkSize with hT
  refine ⟨rfl, by simp, ?_, ?_, ?_, ?_⟩
  · intro c hc
    rcases List.mem_map.mp hc with ⟨i, _, hi⟩
    have hsz : c.size = Int.ofNat (min ChunkSize (S - i * ChunkSize)) := by
      rw [← hi]
      simp [chunk_data_length]
    rw [hsz]
    exact Int.ofNat_le.mpr (Nat.min_le_left _ _)
  · intro i c hgc hlt
    rw [List.get?_map] at hgc
    have hiT : i < T := by
      have := hlt
      simp at this
      omega
    rw [List.get?_range hiT] at hgc
    simp only [Option.map_some] at hgc
    injection hgc with hgc
    have hsz : c.size = Int.ofNat (min ChunkSize (S - i * ChunkSize)) := by
      rw [← hgc]
      simp [chunk_data_length]
    rw [hsz]
    have hlt2 : i + 1 < T := by
      have := hlt
      simp at this
      omega
    have : min ChunkSize (S - i * ChunkSize) = ChunkSize := by
      unfold ChunkSize at hT hlt2 ⊢
      omega
    rw [this]
  · simp only [List.map_map]
    have h1 : ((fun c : ChunkInfo => c.size) ∘ (fun i =>
        let data := (content.drop (i * ChunkSize)).take ChunkSize
        ({ index := Int.ofNat i, hash := sha data,
           size := Int.ofNat data.length } : ChunkInfo)))
        = (fun i => Int.ofNat (min ChunkSize (S - i * ChunkSize))) := by
      funext i
      simp [chunk_data_length]
    rw [h1]
    have h2 : (fun i => Int.ofNat (min ChunkSize (S - i * ChunkSize)))
        = (fun n => Int.ofNat n) ∘ (fun i => min ChunkSize (S - i * ChunkSize)) := rfl
    rw [h2, ← List.map_map, sum_map_ofNat, chunkSizes_sum T S hT]
  · intro hdvd
    constructor
    · show T = S / ChunkSize
      rcases hdvd with ⟨k, hk⟩
      unfold ChunkSize at hT hk ⊢
      omega
    · intro c hc
      rcases List.mem_map.mp hc with ⟨i, hiR, hi⟩
      have hiT : i < T := List.mem_range.mp hiR
      have hsz : c.size = Int.ofNat (min ChunkSize (S - i * ChunkSize)) := by
        rw [← hi]
        simp [chunk_data_length]
      rw [hsz]
      rcases hdvd with ⟨k, hk⟩
      have : min ChunkSize (S - i * ChunkSize) = ChunkSize := by
        unfold ChunkSize at hT hk ⊢
        omega
      rw [this]

/-- Witness for C7: a one-byte file yields one chunk of size one, summing to
the file size. -/
theorem c7_chunkFile_manifest_witness :
    (0 : Nat) < ([7] : List Byte).length ∧
    chunkFile (fun _ => "h") "f.bin" [7]
      = .ok { fileName := "f.bin", fileSize := 1, fileHash := "h",
              chunkSize := Int.ofNat ChunkSize, totalChunks := 1,
              chunks := [{ index := 0, hash := "h", size := 1 }] } ∧
    ([{ index := 0, hash := "h", size := 1 }] : List ChunkInfo).length = 1 ∧
    (([{ index := 0, hash := "h", size := 1 }] : List ChunkInfo).map
        (fun c => c.size)).sum = 1 := by
  have h := c7_chunkFile_manifest (fun _ => "h") "f.bin" [7] (by decide)
    { fileName := "f.bin", fileSize := 1, fileHash := "h",
      chunkSize := Int.ofNat ChunkSize, totalChunks := 1,
      chunks := [{ index := 0, hash := "h", size := 1 }] } (by rfl)
  exact ⟨by decide, by rfl, h.2.1, h.2.2.2.2.1⟩

/-! ## C10: accept_requests / list_requests assume the group exists -/

/-- C10: `acceptRequest` and `listRequests` read `groups[groupID]` without an
existence check: on a request naming an absent group they dereference a nil
`*Group` and panic (`none`) instead of answering "group not found"; whenever
either handler does produce an error response, the named group exists and
the response is the owner-check error "not owner". -/
theorem c10_accept_list_requests_nil_group (s : TrackerState)
    (g o u : String) (restA restL : List String)
    (habs : SMap.find s.groups g = none) :
    acceptRequest (g :: o :: u :: restA) s = none ∧
    listRequests (g :: o :: restL) s = none ∧
    (∀ args resp s' bc, acceptRequest args s = some (resp, s', bc) →
        resp.status = "error" →
        ∃ gid rest gr, args = gid :: rest ∧ SMap.find s.groups gid = some gr ∧
          resp.data = .str "not owner") ∧
    (∀ args resp s' bc, listRequests args s = some (resp, s', bc) →
        resp.status = "error" →
        ∃ gid rest gr, args = gid :: rest ∧ SMap.find s.groups gid = some gr ∧
          resp.data = .str "not owner") := by
  refine ⟨by simp [acceptRequest, habs], by simp [listRequests, habs], ?_, ?_⟩
  · intro args resp s' bc happ herr
    match args with
    | [] => simp [acceptRequest] at happ
    | [gid] => simp [acceptRequest] at happ
    | [gid, o1] => simp [acceptRequest] at happ
    | gid :: o1 :: u1 :: rest3 =>
      cases hg : SMap.find s.groups gid with
      | none => simp [acceptRequest, hg] at happ
      | some gr =>
        by_cases how : gr.owner ≠ o1
        · refine ⟨gid, o1 :: u1 :: rest3, gr, rfl, hg, ?_⟩
          simp only [acceptRequest, hg, if_pos how] at happ
          have hresp : resp = { status := "error", data := .str "not owner" } := by
            injection happ with h1
            exact (congrArg Prod.fst h1).symm
          rw [hresp]
        · simp only [acceptRequest, hg, if_neg how] at happ
          have hresp : resp = { status := "ok", data := .str "request accepted successfully" } := by
            injection happ with h1
            exact (congrArg Prod.fst h1).symm
          rw [hresp] at herr
          simp at herr
  · intro args resp s' bc happ herr
    match args with
    | [] => simp [listRequests] at happ
    | [gid] => simp [listRequests] at happ
    | gid :: u1 :: rest2 =>
      cases hg : SMap.find s.groups gid with
      | none => simp [listRequests, hg] at happ
      | some gr =>
        by_cases how : gr.owner ≠ u1
        · refine ⟨gid, u1 :: rest2, gr, rfl, hg, ?_⟩
          simp only [listRequests, hg, if_pos how] at happ
          have hresp : resp = { status := "error", data := .str "not owner" } := by
            injection happ with h1
            exact (congrArg Prod.fst h1).symm
          rw [hresp]
        · simp only [listRequests, hg, if_neg how] at happ
          have hresp : resp = { status := "ok", data := .strs gr.pending } := by
            injection happ with h1
            exact (congrArg Prod.fst h1).symm
          rw [hresp] at herr
          simp at herr

/-- Witness for C10: on the empty tracker state, an `accept_requests` and a
`list_requests` request naming the absent group `g` panic. -/
theorem c10_accept_list_requests_nil_group_witness :
    acceptRequest ["g", "o", "u"] initialTrackerState = none ∧
    listRequests ["g", "o"] initialTrackerState = none := by
  have h := c10_accept_list_requests_nil_group initialTrackerState "g" "o" "u" [] []
    (by rfl)
  exact ⟨h.1, h.2.1⟩

/-! ## C1: the empty-file policy is not implemented -/



/-- C1 (refuted): zero-byte files do enter the system.  `ChunkFile` returns
a zero-chunk manifest with no error for empty content, the tracker's
`uploadFile` accepts the upload with `file_size = 0` (there is no
`file_size > 0` check), the resulting state is reachable by client
requests alone, and the zero-size file appears in the next `list_files`
result. -/
theorem c1_empty_file_enters_system :
    chunkFile (fun _ => "h") "empty.bin" []
      = .ok { fileName := "empty.bin", fileSize := 0, fileHash := "h",
              chunkSize := Int.ofNat ChunkSize, totalChunks := 0, chunks := [] } ∧
    ReachClient decodeEmptyOnly c1StateAfterUpload ∧
    SMap.find c1StateAfterUpload.files "g:empty.bin"
      = some { fileName := "empty.bin", groupID := "g", uploader := "alice", fileSize := 0,
               fileHash := "h", chunkSize := 512 * 1024, totalChunks := 0, chunks := [],
               owners := ["alice"] } ∧
    listFiles ["g"] c1StateAfterUpload
      = some ({ status := "ok", data := .fileEntries [("empty.bin", 0, "alice")] },
          c1StateAfterUpload, []) := by
  refine ⟨by rfl, ?_, by rfl, by rfl⟩
  have h1 : applyReq decodeEmptyOnly (.rCreateUser ["alice", "pw"]) initialTrackerState
      = some ({ status := "ok", data := .str "user created" },
          { users := [("alice",
              { userID := "alice", password := "pw", loggedIn := false, addr := "" })],
            groups := [], files := [] },
          [("sync_create_user", ["alice", "pw"])]) := by rfl
  have h2 : applyReq decodeEmptyOnly (.rCreateGroup ["g", "alice"])
      { users := [("alice",
          { userID := "alice", password := "pw", loggedIn := false, addr := "" })],
        groups := [], files := [] }
      = some ({ status := "ok", data := .groupCreated "g" "alice" "group created" },
          { users := [("alice",
              { userID := "alice", password := "pw", loggedIn := false, addr := "" })],
            groups := [("g",
              { groupID := "g", owner := "alice", members := ["alice"], pending := [] })],
            files := [] },
          [("sync_create_group", ["g", "alice"])]) := by rfl
  have h3 : applyReq decodeEmptyOnly
      (.rUploadFile ["empty.bin", "g", "alice", "0", "h", "[]"])
      { users := [("alice",
          { userID := "alice", password := "pw", loggedIn := false, addr := "" })],
        groups := [("g",
          { groupID := "g", owner := "alice", members := ["alice"], pending := [] })],
        files := [] }
      = some ({ status := "ok",
                data := .uploadAck "file uploaded successfully" "empty.bin" "g" 0 "alice"
                  (some ("h", 0)) },
          c1StateAfterUpload,
          [("sync_upload_file", ["empty.bin", "g", "alice", "0", "h", "[]"])]) := by rfl
  exact ((ReachClient.init.step (by rfl) h1).step (by rfl) h2).step (by rfl) h3

/-! ## C3: gossip application re-emits broadcasts -/



/-- C3 (refuted): the apply-without-rebroadcast path does re-emit outbound
broadcasts.  `applySync "sync_stop_sharing"` re-uses `stopSharing`, which
spawns `broadcastToTrackers("sync_stop_sharing", args)`, and
`applySync "sync_upload_file"` re-uses `uploadFile`, which spawns
`broadcastToTrackers("sync_upload_file", args)` whenever the insert
succeeds on the receiving tracker; both recorded broadcast lists below are
non-empty. -/
theorem c3_applySync_rebroadcasts :
    applySync decodeEmptyOnly "sync_stop_sharing" ["g", "f", "a"] c3StateWithFile
      = some ({ status := "ok", data := .str "synced" },
          { users := []
            groups := [("g",
              { groupID := "g", owner := "alice", members := ["alice"], pending := [] })]
            files := [("g:f",
              { fileName := "f", groupID := "g", uploader := "a", fileSize := 5,
                fileHash := "h", chunkSize := 512 * 1024, totalChunks := 1,
                chunks := [{ index := 0, hash := "ch", size := 5 }], owners := ["b"] })] },
          [("sync_stop_sharing", ["g", "f", "a"])]) ∧
    applySync decodeEmptyOnly "sync_upload_file" ["f2", "g", "alice", "5", "h", "[]"]
        c3StateNoFile
      = some ({ status := "ok", data := .str "synced" },
          { users := []
            groups := [("g",
              { groupID := "g", owner := "alice", members := ["alice"], pending := [] })]
            files := [("g:f2",
              { fileName := "f2", groupID := "g", uploader := "alice", fileSize := 5,
                fileHash := "h", chunkSize := 512 * 1024, totalChunks := 0, chunks := [],
                owners := ["alice"] })] },
          [("sync_upload_file", ["f2", "g", "alice", "5", "h", "[]"])]) := by
  exact ⟨by rfl, by rfl⟩

/-! ## State invariants of the tracker -/


theorem filesInv_congr {s s' : TrackerState} (hg : s'.groups = s.groups)
    (hf : s'.files = s.files) (hinv : FilesInv s) : FilesInv s' := by
  intro p hp
  rw [hf] at hp
  rw [hg]
  exact hinv p hp

theorem find_isSome_set {α : Type} (m : SMap α) (k k' : String) (v : α)
    (h : (SMap.find m k').isSome = true) :
    (SMap.find (SMap.set m k v) k').isSome = true := by
  rw [SMap.find_set]
  by_cases hk : k = k'
  · rw [if_pos hk]
    rfl
  · rw [if_neg hk]
    exact h

theorem filesInv_groups_set {s : TrackerState} {gid : String} {gr' : Group}
    (hinv : FilesInv s) :
    FilesInv { s with groups := SMap.set s.groups gid gr' } := by
  intro p hp
  obtain ⟨h1, h2, h3⟩ := hinv p hp
  exact ⟨h1, h2, find_isSome_set _ _ _ _ h3⟩

theorem filesInv_files_set {s : TrackerState} {gid fn : String} {f : File}
    (hinv : FilesInv s) (how : f.owners ≠ []) (hid : f.groupID = gid)
    (hfn : f.fileName = fn) (hg : (SMap.find s.groups gid).isSome = true) :
    FilesInv { s with files := SMap.set s.files (fileKey gid fn) f } := by
  intro p hp
  rcases SMap.mem_set hp with hp | hp
  · exact hinv p hp
  · subst hp
    exact ⟨how, by rw [hid, hfn], by rw [hid]; exact hg⟩

theorem filesInv_files_del {s : TrackerState} {key : String}
    (hinv : FilesInv s) : FilesInv { s with files := SMap.del s.files key } := by
  intro p hp
  exact hinv p (SMap.mem_del hp)

theorem filesInv_files_update {s : TrackerState} {key : String} {f f' : File}
    (hinv : FilesInv s) (hfind : SMap.find s.files key = some f)
    (hgid : f'.groupID = f.groupID) (hfn : f'.fileName = f.fileName)
    (how : f'.owners ≠ []) :
    FilesInv { s with files := SMap.set s.files key f' } := by
  obtain ⟨_, hkey, hgrp⟩ := hinv (key, f) (SMap.find_mem hfind)
  intro p hp
  rcases SMap.mem_set hp with hp | hp
  · exact hinv p hp
  · subst hp
    refine ⟨how, ?_, ?_⟩
    · rw [hgid, hfn]
      exact hkey
    · rw [hgid]
      exact hgrp

theorem ownersInv_congr {s s' : TrackerState} (hg : s'.groups = s.groups)
    (hinv : OwnersInMembersInv s) : OwnersInMembersInv s' := by
  intro g gr hfind
  rw [hg] at hfind
  exact hinv g gr hfind

theorem ownersInv_set {s : TrackerState} {gid : String} {gr' : Group}
    (hinv : OwnersInMembersInv s) (hmem : SSet.mem gr'.members gr'.owner = true) :
    OwnersInMembersInv { s with groups := SMap.set s.groups gid gr' } := by
  intro g₀ gr₀ hfind
  simp only at hfind
  rw [SMap.find_set] at hfind
  by_cases h : gid = g₀
  · rw [if_pos h] at hfind
    injection hfind with h'
    subst h'
    exact hmem
  · rw [if_neg h] at hfind
    exact hinv g₀ gr₀ hfind

/-! ### Per-handler effect lemmas -/

theorem createUser_effect {args : List String} {s : TrackerState}
    {out : Response × TrackerState × List Broadcast}
    (happ : createUser args s = some out) :
    out.2.1.groups = s.groups ∧ out.2.1.files = s.files := by
  unfold createUser at happ
  split at happ
  · split at happ
    · injection happ with h
      rw [← h]
      exact ⟨rfl, rfl⟩
    · injection happ with h
      rw [← h]
      exact ⟨rfl, rfl⟩
  · exact absurd happ (by simp)

theorem login_effect {args : List String} {s : TrackerState}
    {out : Response × TrackerState × List Broadcast}
    (happ : login args s = some out) :
    out.2.1.groups = s.groups ∧ out.2.1.files = s.files := by
  unfold login at happ
  split at happ
  · split at happ
    · injection happ with h
      rw [← h]
      exact ⟨rfl, rfl⟩
    · split at happ
      · injection happ with h
        rw [← h]
        exact ⟨rfl, rfl⟩
      · injection happ with h
        rw [← h]
        exact ⟨rfl, rfl⟩
  · exact absurd happ (by simp)

theorem updateAddress_effect {args : List String} {s : TrackerState}
    {out : Response × TrackerState × List Broadcast}
    (happ : updateAddress args s = some out) :
    out.2.1.groups = s.groups ∧ out.2.1.files = s.files := by
  unfold updateAddress at happ
  split at happ
  · split at happ
    · injection happ with h
      rw [← h]
      exact ⟨rfl, rfl⟩
    · split at happ
      · injection happ with h
        rw [← h]
        exact ⟨rfl, rfl⟩
      · injection happ with h
        rw [← h]
        exact ⟨rfl, rfl⟩
  · exact absurd happ (by simp)

theorem listRequests_effect {args : List String} {s : TrackerState}
    {out : Response × TrackerState × List Broadcast}
    (happ : listRequests args s = some out) : out.2.1 = s := by
  unfold listRequests at happ
  split at happ
  · split at happ
    · exact absurd happ (by simp)
    · split at happ
      · injection happ with h
        rw [← h]
      · injection happ with h
        rw [← h]
  · exact absurd happ (by simp)

theorem listFiles_effect {args : List String} {s : TrackerState}
    {out : Response × TrackerState × List Broadcast}
    (happ : listFiles args s = some out) : out.2.1 = s := by
  unfold listFiles at happ
  split at happ
  · split at happ
    all_goals
    · dsimp only at happ
      split at happ
      · injection happ with h
        rw [← h]
      · split at happ
        · injection happ with h
          rw [← h]
        · split at happ
          · injection happ with h
            rw [← h]
          · injection happ with h
            rw [← h]
  · exact absurd happ (by simp)

theorem getFileInfo_effect {args : List String} {s : TrackerState}
    {out : Response × TrackerState × List Broadcast}
    (happ : getFileInfo args s = some out) : out.2.1 = s := by
  unfold getFileInfo at happ
  split at happ
  · split at happ
    · injection happ with h
      rw [← h]
    · injection happ with h
      rw [← h]
  · exact absurd happ (by simp)

theorem listGroups_effect {args : List String} {s : TrackerState}
    {out : Response × TrackerState × List Broadcast}
    (happ : listGroups args s = some out) : out.2.1 = s := by
  unfold listGroups at happ
  split at happ
  · injection happ with h
    rw [← h]
  · injection happ with h
    rw [← h]

theorem createGroup_effect {args : List String} {s : TrackerState}
    {out : Response × TrackerState × List Broadcast}
    (happ : createGroup args s = some out) :
    out.2.1.files = s.files ∧
    (out.2.1.groups = s.groups ∨
      ∃ gid gr', SSet.mem gr'.members gr'.owner = true ∧
        gr'.pending = [] ∧
        out.2.1.groups = SMap.set s.groups gid gr') := by
  unfold createGroup at happ
  split at happ
  case _ gid user rest =>
    split at happ
    · injection happ with h
      rw [← h]
      exact ⟨rfl, Or.inl rfl⟩
    · injection happ with h
      rw [← h]
      refine ⟨rfl, Or.inr ⟨gid,
        { groupID := gid, owner := user, members := [user], pending := [] }, ?_, rfl, rfl⟩⟩
      simp [SSet.mem]
  case _ => exact absurd happ (by simp)

theorem joinGroup_effect {args : List String} {s : TrackerState}
    {out : Response × TrackerState × List Broadcast}
    (happ : joinGroup args s = some out) :
    out.2.1.files = s.files ∧
    (out.2.1.groups = s.groups ∨
      ∃ gid g gr', SMap.find s.groups gid = some g ∧ gr'.owner = g.owner ∧
        gr'.members = g.members ∧ out.2.1.groups = SMap.set s.groups gid gr') := by
  unfold joinGroup at happ
  split at happ
  case _ gid user rest =>
    split at happ
    case _ hfind =>
      injection happ with h
      rw [← h]
      exact ⟨rfl, Or.inl rfl⟩
    case _ g hfind =>
      injection happ with h
      rw [← h]
      exact ⟨rfl, Or.inr ⟨gid, g, { g with pending := SSet.add g.pending user },
        hfind, rfl, rfl, rfl⟩⟩
  case _ => exact absurd happ (by simp)

theorem acceptRequest_effect {args : List String} {s : TrackerState}
    {out : Response × TrackerState × List Broadcast}
    (happ : acceptRequest args s = some out) :
    out.2.1.files = s.files ∧
    (out.2.1.groups = s.groups ∨
      ∃ gid g u gr', SMap.find s.groups gid = some g ∧ gr'.owner = g.owner ∧
        gr'.members = SSet.add g.members u ∧
        out.2.1.groups = SMap.set s.groups gid gr') := by
  unfold acceptRequest at happ
  split at happ
  case _ gid owner user rest =>
    split at happ
    case _ hfind => exact absurd happ (by simp)
    case _ g hfind =>
      split at happ
      · injection happ with h
        rw [← h]
        exact ⟨rfl, Or.inl rfl⟩
      · injection happ with h
        rw [← h]
        exact ⟨rfl, Or.inr ⟨gid, g, user,
          { g with pending := SSet.del g.pending user,
                   members := SSet.add g.members user },
          hfind, rfl, rfl, rfl⟩⟩
  case _ => exact absurd happ (by simp)

theorem leaveGroup_effect {args : List String} {s : TrackerState}
    {out : Response × TrackerState × List Broadcast}
    (happ : leaveGroup args s = some out) :
    out.2.1.files = s.files ∧
    (out.2.1.groups = s.groups ∨
      ∃ gid g u gr', SMap.find s.groups gid = some g ∧ g.owner ≠ u ∧
        gr'.owner = g.owner ∧ gr'.members = SSet.del g.members u ∧
        out.2.1.groups = SMap.set s.groups gid gr') := by
  unfold leaveGroup at happ
  split at happ
  case _ gid user rest =>
    split at happ
    case _ hfind =>
      injection happ with h
      rw [← h]
      exact ⟨rfl, Or.inl rfl⟩
    case _ g hfind =>
      split at happ
      case _ howner =>
        injection happ with h
        rw [← h]
        exact ⟨rfl, Or.inl rfl⟩
      case _ howner =>
        split at happ
        · injection happ with h
          rw [← h]
          exact ⟨rfl, Or.inl rfl⟩
        · injection happ with h
          rw [← h]
          exact ⟨rfl, Or.inr ⟨gid, g, user,
            { g with members := SSet.del g.members user }, hfind, howner, rfl, rfl, rfl⟩⟩
  case _ =>
    injection happ with h
    rw [← h]
    exact ⟨rfl, Or.inl rfl⟩

theorem uploadFileCore_effect {args : List String}
    {fileName groupID userID fileSizeStr fileHash : String}
    {chunks : List ChunkInfo} {hasManifest : Bool} {s : TrackerState}
    {out : Response × TrackerState × List Broadcast}
    (happ : uploadFileCore args fileName groupID userID fileSizeStr fileHash
      chunks hasManifest s = some out) :
    out.2.1.groups = s.groups ∧
    (out.2.1.files = s.files ∨
      ∃ (gid fn : String) (f : File), (SMap.find s.groups gid).isSome = true ∧
        f.owners ≠ [] ∧ f.groupID = gid ∧ f.fileName = fn ∧
        out.2.1.files = SMap.set s.files (fileKey gid fn) f) := by
  unfold uploadFileCore at happ
  split at happ
  case _ hfind => 
    injection happ with h
    rw [← h]
    exact ⟨rfl, Or.inl rfl⟩
  case _ g hfind =>
    split at happ
    · injection happ with h
      rw [← h]
      exact ⟨rfl, Or.inl rfl⟩
    · split at happ
      · injection happ with h
        rw [← h]
        exact ⟨rfl, Or.inl rfl⟩
      · injection happ with h
        rw [← h]
        refine ⟨rfl, Or.inr ⟨groupID, fileName,
          { fileName := fileName, groupID := groupID, uploader := userID,
            fileSize := goScanInt fileSizeStr, fileHash := fileHash,
            chunkSize := 512 * 1024, totalChunks := chunks.length,
            chunks := chunks, owners := [userID] }, ?_, by simp, rfl, rfl, rfl⟩⟩
        rw [hfind]
        rfl

theorem uploadFile_effect {decode : String → Option (List ChunkInfo)}
    {args : List String} {s : TrackerState}
    {out : Response × TrackerState × List Broadcast}
    (happ : uploadFile decode args s = some out) :
    out.2.1.groups = s.groups ∧
    (out.2.1.files = s.files ∨
      ∃ (gid fn : String) (f : File), (SMap.find s.groups gid).isSome = true ∧
        f.owners ≠ [] ∧ f.groupID = gid ∧ f.fileName = fn ∧
        out.2.1.files = SMap.set s.files (fileKey gid fn) f) := by
  unfold uploadFile at happ
  split at happ
  · split at happ
    · injection happ with h
      rw [← h]
      exact ⟨rfl, Or.inl rfl⟩
    · exact uploadFileCore_effect happ
  · exact uploadFileCore_effect happ
  · exact absurd happ (by simp)

theorem stopSharing_effect {args : List String} {s : TrackerState}
    {out : Response × TrackerState × List Broadcast}
    (happ : stopSharing args s = some out) :
    out.2.1.groups = s.groups ∧
    (out.2.1.files = s.files ∨
      (∃ key, out.2.1.files = SMap.del s.files key) ∨
      ∃ (key : String) (f : File) (owners' : SSet), SMap.find s.files key = some f ∧
        owners' ≠ [] ∧
        out.2.1.files = SMap.set s.files key { f with owners := owners' }) := by
  unfold stopSharing at happ
  split at happ
  case _ gid fn user rest =>
    split at happ
    case _ hfind =>
      injection happ with h
      rw [← h]
      exact ⟨rfl, Or.inl rfl⟩
    case _ f hfind =>
      dsimp only at happ
      split at happ
      case _ hempty =>
        injection happ with h
        rw [← h]
        exact ⟨rfl, Or.inr (Or.inl ⟨fileKey gid fn, rfl⟩)⟩
      case _ hempty =>
        injection happ with h
        rw [← h]
        refine ⟨rfl, Or.inr (Or.inr ⟨fileKey gid fn, f, SSet.del f.owners user,
          hfind, ?_, rfl⟩)⟩
        intro hnil
        rw [hnil] at hempty
        exact hempty rfl
  case _ => exact absurd happ (by simp)

theorem addSeeder_effect {args : List String} {s : TrackerState}
    {out : Response × TrackerState × List Broadcast}
    (happ : addSeeder args s = some out) :
    out.2.1.groups = s.groups ∧
    (out.2.1.files = s.files ∨
      ∃ (key : String) (f : File) (u : String), SMap.find s.files key = some f ∧
        out.2.1.files = SMap.set s.files key { f with owners := SSet.add f.owners u }) := by
  unfold addSeeder at happ
  split at happ
  case _ gid fn user rest =>
    split at happ
    case _ hfind =>
      injection happ with h
      rw [← h]
      exact ⟨rfl, Or.inl rfl⟩
    case _ f hfind =>
      split at happ
      case _ hg =>
        injection happ with h
        rw [← h]
        exact ⟨rfl, Or.inl rfl⟩
      case _ hg =>
        injection happ with h
        rw [← h]
        exact ⟨rfl, Or.inr ⟨fileKey gid fn, f, user, hfind, rfl⟩⟩
  case _ =>
    injection happ with h
    rw [← h]
    exact ⟨rfl, Or.inl rfl⟩

/-! ### Invariant preservation -/

theorem uploadFile_filesInv {decode : String → Option (List ChunkInfo)}
    {args : List String} {s : TrackerState}
    {out : Response × TrackerState × List Broadcast}
    (happ : uploadFile decode args s = some out) (hinv : FilesInv s) :
    FilesInv out.2.1 := by
  obtain ⟨hg, hf⟩ := uploadFile_effect happ
  rcases hf with hf | ⟨gid, fn, f, hgs, how, hgid, hfn, hset⟩
  · exact filesInv_congr hg hf hinv
  · exact filesInv_congr (s := { s with files := SMap.set s.files (fileKey gid fn) f })
      hg hset (filesInv_files_set hinv how hgid hfn hgs)

theorem stopSharing_filesInv {args : List String} {s : TrackerState}
    {out : Response × TrackerState × List Broadcast}
    (happ : stopSharing args s = some out) (hinv : FilesInv s) :
    FilesInv out.2.1 := by
  obtain ⟨hg, hf⟩ := stopSharing_effect happ
  rcases hf with hf | ⟨key, hdel⟩ | ⟨key, f, owners', hfind, how, hset⟩
  · exact filesInv_congr hg hf hinv
  · exact filesInv_congr (s := { s with files := SMap.del s.files key })
      hg hdel (filesInv_files_del hinv)
  · exact filesInv_congr (s := { s with files := SMap.set s.files key { f with owners := owners' } })
      hg hset (filesInv_files_update hinv hfind rfl rfl how)

theorem addSeeder_filesInv {args : List String} {s : TrackerState}
    {out : Response × TrackerState × List Broadcast}
    (happ : addSeeder args s = some out) (hinv : FilesInv s) :
    FilesInv out.2.1 := by
  obtain ⟨hg, hf⟩ := addSeeder_effect happ
  rcases hf with hf | ⟨key, f, u, hfind, hset⟩
  · exact filesInv_congr hg hf hinv
  · exact filesInv_congr
      (s := { s with files := SMap.set s.files key { f with owners := SSet.add f.owners u } })
      hg hset (filesInv_files_update hinv hfind rfl rfl (SSet.add_ne_nil _ _))

theorem applySync_filesInv {decode : String → Option (List ChunkInfo)}
    {cmd : String} {args : List String} {s : TrackerState}
    {out : Response × TrackerState × List Broadcast}
    (happ : applySync decode cmd args s = some out) (hinv : FilesInv s) :
    FilesInv out.2.1 := by
  unfold applySync at happ
  split at happ
  · -- sync_create_user
    split at happ
    · split at happ
      all_goals
      · injection happ with h
        rw [← h]
        exact filesInv_congr rfl rfl hinv
    · injection happ with h
      rw [← h]
      exact filesInv_congr rfl rfl hinv
  · -- sync_create_group
    split at happ
    · split at happ
      · injection happ with h
        rw [← h]
        exact filesInv_congr rfl rfl hinv
      · injection happ with h
        rw [← h]
        exact filesInv_groups_set hinv
    · injection happ with h
      rw [← h]
      exact filesInv_congr rfl rfl hinv
  · -- sync_join_group
    split at happ
    · split at happ
      · injection happ with h
        rw [← h]
        exact filesInv_congr rfl rfl hinv
      · injection happ with h
        rw [← h]
        exact filesInv_groups_set hinv
    · injection happ with h
      rw [← h]
      exact filesInv_congr rfl rfl hinv
  · -- sync_accept_request
    split at happ
    · split at happ
      · injection happ with h
        rw [← h]
        exact filesInv_congr rfl rfl hinv
      · injection happ with h
        rw [← h]
        exact filesInv_groups_set hinv
    · injection happ with h
      rw [← h]
      exact filesInv_congr rfl rfl hinv
  · -- sync_upload_file
    split at happ
    · injection happ with h
      rw [← h]
      exact filesInv_congr rfl rfl hinv
    · split at happ
      · exact absurd happ (by simp)
      case _ r s' bc hup =>
        injection happ with h
        rw [← h]
        have hres := uploadFile_filesInv hup hinv
        exact hres
  · -- sync_stop_sharing
    split at happ
    · injection happ with h
      rw [← h]
      exact filesInv_congr rfl rfl hinv
    · split at happ
      · exact absurd happ (by simp)
      case _ r s' bc hst =>
        injection happ with h
        rw [← h]
        have hres := stopSharing_filesInv hst hinv
        exact hres
  · -- sync_leave_group
    split at happ
    · split at happ
      · injection happ with h
        rw [← h]
        exact filesInv_congr rfl rfl hinv
      · injection happ with h
        rw [← h]
        exact filesInv_groups_set hinv
    · injection happ with h
      rw [← h]
      exact filesInv_congr rfl rfl hinv
  · -- sync_add_seeder
    split at happ
    · split at happ
      case _ hfind =>
        injection happ with h
        rw [← h]
        exact filesInv_congr rfl rfl hinv
      case _ f hfind =>
        injection happ with h
        rw [← h]
        exact filesInv_congr
          (s := { s with files := SMap.set s.files _ { f with owners := SSet.add f.owners _ } })
          rfl rfl (filesInv_files_update hinv hfind rfl rfl (SSet.add_ne_nil _ _))
    · injection happ with h
      rw [← h]
      exact filesInv_congr rfl rfl hinv
  · -- unknown sync command
    injection happ with h
    rw [← h]
    exact filesInv_congr rfl rfl hinv

theorem applyReq_filesInv {decode : String → Option (List ChunkInfo)}
    {r : Req} {s : TrackerState}
    {out : Response × TrackerState × List Broadcast}
    (happ : applyReq decode r s = some out) (hinv : FilesInv s) :
    FilesInv out.2.1 := by
  cases r with
  | rCreateUser args =>
    obtain ⟨hg, hf⟩ := createUser_effect happ
    exact filesInv_congr hg hf hinv
  | rLogin args =>
    obtain ⟨hg, hf⟩ := login_effect happ
    exact filesInv_congr hg hf hinv
  | rUpdateAddress args =>
    obtain ⟨hg, hf⟩ := updateAddress_effect happ
    exact filesInv_congr hg hf hinv
  | rCreateGroup args =>
    obtain ⟨hf, hg⟩ := createGroup_effect happ
    rcases hg with hg | ⟨gid, gr', _, _, hset⟩
    · exact filesInv_congr hg hf hinv
    · exact filesInv_congr (s := { s with groups := SMap.set s.groups gid gr' })
        hset hf (filesInv_groups_set hinv)
  | rJoinGroup args =>
    obtain ⟨hf, hg⟩ := joinGroup_effect happ
    rcases hg with hg | ⟨gid, g, gr', _, _, _, hset⟩
    · exact filesInv_congr hg hf hinv
    · exact filesInv_congr (s := { s with groups := SMap.set s.groups gid gr' })
        hset hf (filesInv_groups_set hinv)
  | rAcceptRequest args =>
    obtain ⟨hf, hg⟩ := acceptRequest_effect happ
    rcases hg with hg | ⟨gid, g, u, gr', _, _, _, hset⟩
    · exact filesInv_congr hg hf hinv
    · exact filesInv_congr (s := { s with groups := SMap.set s.groups gid gr' })
        hset hf (filesInv_groups_set hinv)
  | rListRequests args =>
    rw [applyReq] at happ
    rw [listRequests_effect happ]
    exact hinv
  | rUploadFile args => exact uploadFile_filesInv happ hinv
  | rListFiles args =>
    rw [applyReq] at happ
    rw [listFiles_effect happ]
    exact hinv
  | rGetFileInfo args =>
    rw [applyReq] at happ
    rw [getFileInfo_effect happ]
    exact hinv
  | rListGroups args =>
    rw [applyReq] at happ
    rw [listGroups_effect happ]
    exact hinv
  | rStopSharing args => exact stopSharing_filesInv happ hinv
  | rLeaveGroup args =>
    obtain ⟨hf, hg⟩ := leaveGroup_effect happ
    rcases hg with hg | ⟨gid, g, u, gr', _, _, _, _, hset⟩
    · exact filesInv_congr hg hf hinv
    · exact filesInv_congr (s := { s with groups := SMap.set s.groups gid gr' })
        hset hf (filesInv_groups_set hinv)
  | rAddSeeder args => exact addSeeder_filesInv happ hinv
  | rSync cmd args => exact applySync_filesInv happ hinv

theorem reach_filesInv {decode : String → Option (List ChunkInfo)}
    {s : TrackerState} (h : Reach decode s) : FilesInv s := by
  induction h with
  | init => intro p hp; simp [initialTrackerState] at hp
  | step _ happ ih => exact applyReq_filesInv happ ih

theorem applyReq_ownersInv {decode : String → Option (List ChunkInfo)}
    {r : Req} {s : TrackerState}
    {out : Response × TrackerState × List Broadcast}
    (hclient : r.isClient = true)
    (happ : applyReq decode r s = some out) (hinv : OwnersInMembersInv s) :
    OwnersInMembersInv out.2.1 := by
  cases r with
  | rCreateUser args =>
    exact ownersInv_congr (createUser_effect happ).1 hinv
  | rLogin args =>
    exact ownersInv_congr (login_effect happ).1 hinv
  | rUpdateAddress args =>
    exact ownersInv_congr (updateAddress_effect happ).1 hinv
  | rCreateGroup args =>
    obtain ⟨_, hg⟩ := createGroup_effect happ
    rcases hg with hg | ⟨gid, gr', hmem, _, hset⟩
    · exact ownersInv_congr hg hinv
    · exact ownersInv_congr
        (s := { s with groups := SMap.set s.groups gid gr' }) hset
        (ownersInv_set hinv hmem)
  | rJoinGroup args =>
    obtain ⟨_, hg⟩ := joinGroup_effect happ
    rcases hg with hg | ⟨gid, g, gr', hfind, howner, hmembers, hset⟩
    · exact ownersInv_congr hg hinv
    · refine ownersInv_congr (s := { s with groups := SMap.set s.groups gid gr' }) hset
        (ownersInv_set hinv ?_)
      rw [howner, hmembers]
      exact hinv gid g hfind
  | rAcceptRequest args =>
    obtain ⟨_, hg⟩ := acceptRequest_effect happ
    rcases hg with hg | ⟨gid, g, u, gr', hfind, howner, hmembers, hset⟩
    · exact ownersInv_congr hg hinv
    · refine ownersInv_congr (s := { s with groups := SMap.set s.groups gid gr' }) hset
        (ownersInv_set hinv ?_)
      rw [howner, hmembers]
      exact SSet.mem_add_of_mem u (hinv gid g hfind)
  | rListRequests args =>
    rw [applyReq] at happ
    rw [listRequests_effect happ]
    exact hinv
  | rUploadFile args =>
    exact ownersInv_congr (uploadFile_effect happ).1 hinv
  | rListFiles args =>
    rw [applyReq] at happ
    rw [listFiles_effect happ]
    exact hinv
  | rGetFileInfo args =>
    rw [applyReq] at happ
    rw [getFileInfo_effect happ]
    exact hinv
  | rListGroups args =>
    rw [applyReq] at happ
    rw [listGroups_effect happ]
    exact hinv
  | rStopSharing args =>
    exact ownersInv_congr (stopSharing_effect happ).1 hinv
  | rLeaveGroup args =>
    obtain ⟨_, hg⟩ := leaveGroup_effect happ
    rcases hg with hg | ⟨gid, g, u, gr', hfind, howner, hgr, hmembers, hset⟩
    · exact ownersInv_congr hg hinv
    · refine ownersInv_congr (s := { s with groups := SMap.set s.groups gid gr' }) hset
        (ownersInv_set hinv ?_)
      rw [hgr, hmembers]
      rw [SSet.mem_del_of_ne howner]
      exact hinv gid g hfind
  | rAddSeeder args =>
    exact ownersInv_congr (addSeeder_effect happ).1 hinv
  | rSync cmd args => simp [Req.isClient] at hclient

theorem reachClient_ownersInv {decode : String → Option (List ChunkInfo)}
    {s : TrackerState} (h : ReachClient decode s) : OwnersInMembersInv s := by
  induction h with
  | init => intro g gr hfind; simp [initialTrackerState, SMap.find] at hfind
  | step _ hclient happ ih => exact applyReq_ownersInv hclient happ ih

/-! ## C4: group invariants and join_group -/



/-- C4 counterexample: `joinGroup` has no membership check.  A `join_group`
request from the group owner (already a member) is not a no-op: it places
the member into `pending`, reaching a state in which
`pending(g) ∩ members(g) ≠ ∅`. -/
theorem c4_join_group_member_counterexample :
    joinGroup ["g", "alice"] c4StateOwnerOnly
      = some ({ status := "ok", data := .str "request sent to the group" },
          c4StateAfterJoin, [("sync_join_group", ["g", "alice"])]) ∧
    c4StateAfterJoin ≠ c4StateOwnerOnly ∧
    ReachClient decodeEmptyOnly c4StateAfterJoin ∧
    SMap.find c4StateAfterJoin.groups "g"
      = some { groupID := "g", owner := "alice", members := ["alice"], pending := ["alice"] } ∧
    SSet.mem (["alice"] : SSet) "alice" = true ∧
    SSet.mem (["alice"] : SSet) "alice" = true := by
  refine ⟨by rfl, by decide, ?_, by rfl, by rfl, by rfl⟩
  have h1 : applyReq decodeEmptyOnly (.rCreateGroup ["g", "alice"]) initialTrackerState
      = some ({ status := "ok", data := .groupCreated "g" "alice" "group created" },
          c4StateOwnerOnly, [("sync_create_group", ["g", "alice"])]) := by rfl
  have h2 : applyReq decodeEmptyOnly (.rJoinGroup ["g", "alice"]) c4StateOwnerOnly
      = some ({ status := "ok", data := .str "request sent to the group" },
          c4StateAfterJoin, [("sync_join_group", ["g", "alice"])]) := by rfl
  exact (ReachClient.init.step (by rfl) h1).step (by rfl) h2

/-- C4 (amended): in every tracker state reachable by client requests the
owner of each group is one of its members; but the pending/members
disjointness of the original claim fails, because a `join_group` request
from a user who is already a member is not a no-op — whenever the group
exists the requester is put into `pending` (members unchanged), even if
already a member. -/
theorem c4_owner_in_members_amended :
    (∀ (decode : String → Option (List ChunkInfo)) (s : TrackerState),
        ReachClient decode s → ∀ g gr, SMap.find s.groups g = some gr →
          SSet.mem gr.members gr.owner = true) ∧
    (∀ (s : TrackerState) (g u : String) (rest : List String) (gr : Group)
        (resp : Response) (s' : TrackerState) (bc : List Broadcast),
        SMap.find s.groups g = some gr →
        joinGroup (g :: u :: rest) s = some (resp, s', bc) →
        ∃ gr', SMap.find s'.groups g = some gr' ∧
          SSet.mem gr'.pending u = true ∧ gr'.members = gr.members) := by
  constructor
  · intro decode s h g gr hfind
    exact reachClient_ownersInv h g gr hfind
  · intro s g u rest gr resp s' bc hfind happ
    unfold joinGroup at happ
    dsimp only at happ
    rw [hfind] at happ
    dsimp only at happ
    injection happ with h
    refine ⟨{ gr with pending := SSet.add gr.pending u }, ?_, SSet.mem_add_self _ _, rfl⟩
    have hs' := congrArg (fun p => p.2.1) h
    dsimp only at hs'
    rw [← hs']
    show SMap.find (SMap.set s.groups g _) g = _
    rw [SMap.find_set, if_pos rfl]

/-- Witness for C4 (amended): in the concrete reachable state after
`create_group g alice` the owner is still a member, and a subsequent
`join_group g alice` from the member alice puts alice into pending. -/
theorem c4_owner_in_members_amended_witness :
    SSet.mem (["alice"] : SSet) "alice" = true ∧
    SSet.mem (["alice"] : SSet) "alice" = true ∧ True := by
  have h1 : applyReq decodeEmptyOnly (.rCreateGroup ["g", "alice"]) initialTrackerState
      = some ({ status := "ok", data := .groupCreated "g" "alice" "group created" },
          c4StateOwnerOnly, [("sync_create_group", ["g", "alice"])]) := by rfl
  have hreach : ReachClient decodeEmptyOnly c4StateOwnerOnly :=
    ReachClient.init.step (by rfl) h1
  refine ⟨?_, ?_, trivial⟩
  · exact c4_owner_in_members_amended.1 decodeEmptyOnly c4StateOwnerOnly hreach "g"
      { groupID := "g", owner := "alice", members := ["alice"], pending := [] } (by rfl)
  · obtain ⟨gr', hfind, hpend, _⟩ := c4_owner_in_members_amended.2 c4StateOwnerOnly
      "g" "alice" []
      { groupID := "g", owner := "alice", members := ["alice"], pending := [] }
      { status := "ok", data := .str "request sent to the group" }
      c4StateAfterJoin [("sync_join_group", ["g", "alice"])] (by rfl) (by rfl)
    have hgr : gr' = (⟨"g", "alice", ["alice"], ["alice"]⟩ : Group) := by
      have hconc : SMap.find c4StateAfterJoin.groups "g"
          = some (⟨"g", "alice", ["alice"], ["alice"]⟩ : Group) := by rfl
      rw [hconc] at hfind
      injection hfind with hfind
      exact hfind.symm
    rw [hgr] at hpend
    exact hpend

/-! ## C6: files are present exactly while owned -/

theorem SMap.mem_del_ne {α : Type} {m : SMap α} {k : String}
    {p : String × α} (h : p ∈ SMap.del m k) : p.1 ≠ k := by
  induction m with
  | nil => simp [SMap.del] at h
  | cons q rest ih =>
    obtain ⟨k₀, v₀⟩ := q
    by_cases h₀ : k₀ = k
    · rw [SMap.del, if_pos h₀] at h
      exact ih h
    · rw [SMap.del, if_neg h₀] at h
      rcases List.mem_cons.mp h with h | h
      · subst h
        exact h₀
      · exact ih h

theorem listFiles_not_listed {s : TrackerState} {g fn : String}
    (hnokey : ∀ f' : File, f' ∈ SMap.vals s.files → f'.groupID = g → f'.fileName ≠ fn)
    {resp₂ : Response} {s'' : TrackerState} {bc₂ : List Broadcast}
    (hlist : listFiles [g] s = some (resp₂, s'', bc₂)) :
    fn ∉ listedNames resp₂.data := by
  unfold listFiles at hlist
  dsimp only at hlist
  cases hg : SMap.find s.groups g with
  | none =>
    rw [hg] at hlist
    injection hlist with h
    have : resp₂ = { status := "error", data := .str "group not found" } :=
      (congrArg (fun p => p.1) h).symm
    rw [this]
    simp [listedNames]
  | some gr =>
    rw [hg] at hlist
    dsimp only at hlist
    rw [if_neg (fun hc => hc.1 rfl)] at hlist
    split at hlist
    · injection hlist with h
      have : resp₂ = { status := "ok", data := .str "no files in group" } :=
        (congrArg (fun p => p.1) h).symm
      rw [this]
      simp [listedNames]
    · injection hlist with h
      have hdata := congrArg (fun p => p.1.data) h
      dsimp only at hdata
      rw [← hdata]
      intro hmem
      simp only [listedNames] at hmem
      rcases List.mem_map.mp hmem with ⟨e, he, hfst⟩
      rcases List.mem_filterMap.mp he with ⟨f', hf', hcond⟩
      by_cases hgid : f'.groupID = g
      · rw [if_pos hgid] at hcond
        injection hcond with hcond
        have hname : f'.fileName = fn := by
          rw [← hfst, ← hcond]
        exact hnokey f' hf' hgid hname
      · rw [if_neg hgid] at hcond
        exact absurd hcond (by simp)

/-- C6: in every reachable tracker state a stored file record has a
non-empty owners set; and when `stop_sharing` removes the last owner the
record is deleted outright, the deleted key no longer resolves and the
file name is absent from any subsequent `list_files` answer for the
group. -/
theorem c6_file_present_iff_owned (decode : String → Option (List ChunkInfo))
    (s : TrackerState) (h : Reach decode s) :
    (∀ k f, SMap.find s.files k = some f → f.owners ≠ []) ∧
    (∀ (g fn u : String) (f : File) (resp : Response) (s' : TrackerState)
        (bc : List Broadcast),
        SMap.find s.files (fileKey g fn) = some f →
        SSet.del f.owners u = [] →
        stopSharing [g, fn, u] s = some (resp, s', bc) →
        resp = { status := "ok", data := .str "file removed from tracker (no owners)" } ∧
        SMap.find s'.files (fileKey g fn) = none ∧
        (∀ (resp₂ : Response) (s'' : TrackerState) (bc₂ : List Broadcast),
            listFiles [g] s' = some (resp₂, s'', bc₂) →
            fn ∉ listedNames resp₂.data)) := by
  have hinv := reach_filesInv h
  constructor
  · intro k f hf
    exact (hinv (k, f) (SMap.find_mem hf)).1
  · intro g fn u f resp s' bc hfind hdel happ
    unfold stopSharing at happ
    dsimp only at happ
    rw [hfind] at happ
    dsimp only at happ
    have hcond : (SSet.del f.owners u).isEmpty = true := by
      rw [hdel]
      rfl
    rw [if_pos hcond] at happ
    injection happ with h2
    have hresp : resp = Response.mk "ok" (.str "file removed from tracker (no owners)") :=
      (congrArg (fun p => p.1) h2).symm
    have hs' : s' = { s with files := SMap.del s.files (fileKey g fn) } :=
      (congrArg (fun p => p.2.1) h2).symm
    refine ⟨hresp, ?_, ?_⟩
    · rw [hs']
      show SMap.find (SMap.del s.files (fileKey g fn)) (fileKey g fn) = none
      rw [SMap.find_del, if_pos rfl]
    · intro resp₂ s'' bc₂ hlist
      refine listFiles_not_listed ?_ hlist
      intro f' hf' hgid hname
      rw [hs'] at hf'
      rcases List.mem_map.mp hf' with ⟨p, hp, hval⟩
      have hne := SMap.mem_del_ne hp
      have hmem := SMap.mem_del hp
      have hkey := (hinv p hmem).2.1
      rw [hval, hgid, hname] at hkey
      exact hne hkey

theorem c6StateWithFile_reachable : Reach decodeEmptyOnly c6StateWithFile := by
  have h1 : applyReq decodeEmptyOnly (.rCreateUser ["alice", "pw"]) initialTrackerState
      = some ({ status := "ok", data := .str "user created" },
          { users := [("alice",
              { userID := "alice", password := "pw", loggedIn := false, addr := "" })],
            groups := [], files := [] },
          [("sync_create_user", ["alice", "pw"])]) := by rfl
  have h2 : applyReq decodeEmptyOnly (.rCreateGroup ["g", "alice"])
      { users := [("alice",
          { userID := "alice", password := "pw", loggedIn := false, addr := "" })],
        groups := [], files := [] }
      = some ({ status := "ok", data := .groupCreated "g" "alice" "group created" },
          { users := [("alice",
              { userID := "alice", password := "pw", loggedIn := false, addr := "" })],
            groups := [("g",
              { groupID := "g", owner := "alice", members := ["alice"], pending := [] })],
            files := [] },
          [("sync_create_group", ["g", "alice"])]) := by rfl
  have h3 : applyReq decodeEmptyOnly
      (.rUploadFile ["f.bin", "g", "alice", "5", "h", "[]"])
      { users := [("alice",
          { userID := "alice", password := "pw", loggedIn := false, addr := "" })],
        groups := [("g",
          { groupID := "g", owner := "alice", members := ["alice"], pending := [] })],
        files := [] }
      = some ({ status := "ok",
                data := .uploadAck "file uploaded successfully" "f.bin" "g" 5 "alice"
                  (some ("h", 0)) },
          c6StateWithFile,
          [("sync_upload_file", ["f.bin", "g", "alice", "5", "h", "[]"])]) := by rfl
  exact ReachClient.toReach
    (((ReachClient.init.step (by rfl) h1).step (by rfl) h2).step (by rfl) h3)

/-- Witness for C6: after alice (sole owner) stops sharing `f.bin` in the
concrete reachable state, the record is gone and `list_files g` no longer
shows `f.bin`. -/
theorem c6_file_present_iff_owned_witness :
    SMap.find c6StateAfterStop.files "g:f.bin" = none ∧
    "f.bin" ∉ listedNames (RData.str "no files in group") := by
  have hmain := (c6_file_present_iff_owned decodeEmptyOnly c6StateWithFile
      c6StateWithFile_reachable).2
      "g" "f.bin" "alice"
      { fileName := "f.bin", groupID := "g", uploader := "alice", fileSize := 5,
        fileHash := "h", chunkSize := 512 * 1024, totalChunks := 0, chunks := [],
        owners := ["alice"] }
      { status := "ok", data := .str "file removed from tracker (no owners)" }
      c6StateAfterStop [("sync_stop_sharing", ["g", "f.bin", "alice"])]
      (by rfl) (by rfl) (by rfl)
  refine ⟨hmain.2.1, ?_⟩
  exact hmain.2.2 { status := "ok", data := .str "no files in group" }
    c6StateAfterStop [] (by rfl)

/-! ## C2: download promotion to seeder -/

/-- C2: after every successful `DownloadFile` the client issues exactly one
`add_seeder(group_id, file_name, user)` request (spec-modelled wrapper
`downloadAndSeed`); and an `add_seeder` request naming an existing file of
an existing group (every reachable file's group exists) makes the tracker
insert the user into that file's owners set and answer
ok "registered as seeder", idempotently: repeating the identical request
returns the same response and leaves the state unchanged. -/
theorem c2_download_then_add_seeder :
    (∀ (sha : List Byte → String) (fetch : String → Nat → Option (List Byte))
        (bfo : String → Option (List Bool)) (rarest : Bool) (info : PeerFileInfo)
        (disk d : Disk) (dl sk : Nat) (dest : List Byte) (g f u : String),
        downloadFile sha fetch bfo rarest info disk = .ok d dl sk dest →
        downloadAndSeed sha fetch bfo rarest info disk g f u
          = (.ok d dl sk dest, [{ cmd := "add_seeder", args := [g, f, u] }])) ∧
    (∀ (decode : String → Option (List ChunkInfo)) (s : TrackerState),
        Reach decode s → ∀ (g fn u : String) (file : File),
        SMap.find s.files (fileKey g fn) = some file → file.groupID = g →
        ∃ s₂ : TrackerState,
          dispatchAddSeeder { cmd := "add_seeder", args := [g, fn, u] } s
            = some (Response.mk "ok" (.str "registered as seeder"), s₂,
                [("sync_add_seeder", [g, fn, u])]) ∧
          SMap.find s₂.files (fileKey g fn)
            = some ({ file with owners := SSet.add file.owners u }) ∧
          dispatchAddSeeder { cmd := "add_seeder", args := [g, fn, u] } s₂
            = some (Response.mk "ok" (.str "registered as seeder"), s₂,
                [("sync_add_seeder", [g, fn, u])])) := by
  constructor
  · intro sha fetch bfo rarest info disk d dl sk dest g f u hdl
    unfold downloadAndSeed
    rw [hdl]
  · intro decode s hreach g fn u file hfind hgid
    have hinv := reach_filesInv hreach
    have hgs := (hinv (fileKey g fn, file) (SMap.find_mem hfind)).2.2
    rw [hgid] at hgs
    obtain ⟨gr, hgr⟩ := Option.isSome_iff_exists.mp hgs
    refine
      ⟨{ s with files :=
           SMap.set s.files (fileKey g fn) ({ file with owners := SSet.add file.owners u }) },
       ?_, ?_, ?_⟩
    · unfold dispatchAddSeeder
      rw [if_pos rfl]
      unfold addSeeder
      dsimp only
      rw [hfind]
      dsimp only
      rw [hgr]
    · show SMap.find (SMap.set s.files (fileKey g fn) _) (fileKey g fn) = _
      rw [SMap.find_set, if_pos rfl]
    · unfold dispatchAddSeeder
      rw [if_pos rfl]
      unfold addSeeder
      dsimp only
      have hfind₂ : SMap.find (SMap.set s.files (fileKey g fn)
          ({ file with owners := SSet.add file.owners u })) (fileKey g fn)
          = some ({ file with owners := SSet.add file.owners u }) := by
        rw [SMap.find_set, if_pos rfl]
      rw [hfind₂]
      dsimp only
      rw [hgr]
      dsimp only
      have howners : SSet.add (SSet.add file.owners u) u = SSet.add file.owners u :=
        SSet.add_idem file.owners u
    
      rw [howners]
      have hset : SMap.set (SMap.set s.files (fileKey g fn)
          ({ file with owners := SSet.add file.owners u })) (fileKey g fn)
          ({ file with owners := SSet.add file.owners u })
          = SMap.set s.files (fileKey g fn) ({ file with owners := SSet.add file.owners u }) :=
        SMap.set_set_same _ _ _
      rw [hset]

/-- Witness for C2: a concrete one-chunk download succeeds and issues the
`add_seeder` request, and the tracker accepts `add_seeder` on the concrete
reachable state holding `g:f.bin`, answering ok with the gossip broadcast. -/
theorem c2_download_then_add_seeder_witness :
    downloadAndSeed (fun _ => "h") (fun _ _ => some [7]) (fun _ => none) false c2InfoW []
        "g" "f.bin" "bob"
      = (.ok [(0, [7])] 1 0 [7], [{ cmd := "add_seeder", args := ["g", "f.bin", "bob"] }]) ∧
    (dispatchAddSeeder { cmd := "add_seeder", args := ["g", "f.bin", "bob"] }
        c6StateWithFile).map (fun o => (o.1, o.2.2))
      = some (Response.mk "ok" (.str "registered as seeder"),
          [("sync_add_seeder", ["g", "f.bin", "bob"])]) := by
  constructor
  · exact c2_download_then_add_seeder.1 (fun _ => "h") (fun _ _ => some [7]) (fun _ => none)
      false c2InfoW [] [(0, [7])] 1 0 [7] "g" "f.bin" "bob" (by rfl)
  · obtain ⟨s₂, hstep, _, _⟩ := c2_download_then_add_seeder.2 decodeEmptyOnly
      c6StateWithFile c6StateWithFile_reachable "g" "f.bin" "bob"
      { fileName := "f.bin", groupID := "g", uploader := "alice", fileSize := 5,
        fileHash := "h", chunkSize := 512 * 1024, totalChunks := 0, chunks := [],
        owners := ["alice"] }
      (by rfl) (by rfl)
    rw [hstep]
    rfl

/-! ## C8: resumable, idempotent downloads -/

theorem downloadChunks_all_skipped (sha : List Byte → String)
    (fetch : String → Nat → Option (List Byte)) (pbfs : Option PeerBitfields)
    (chunks : List ChunkInfo) (peers : List String) (order : List Nat)
    (disk : Disk) (dl : Nat) :
    ∀ sk : Nat, (∀ i ∈ order, diskHas disk i = true) →
    downloadChunks sha fetch pbfs chunks peers order disk dl sk
      = .done disk dl (sk + order.length) := by
  induction order with
  | nil => intro sk _; simp [downloadChunks]
  | cons i rest ih =>
    intro sk hall
    rw [downloadChunks, if_pos (hall i (List.mem_cons_self i rest))]
    rw [ih (sk + 1) (fun j hj => hall j (List.mem_cons_of_mem i hj))]
    congr 1
    simp
    omega

theorem assembleFromDisk_isSome {disk : Disk} {l : List Nat} {dest : List Byte}
    (h : assembleFromDisk disk l = some dest) : ∀ i ∈ l, diskHas disk i = true := by
  induction l generalizing dest with
  | nil => intro i hi; simp at hi
  | cons j rest ih =>
    intro i hi
    rw [assembleFromDisk] at h
    cases hr : diskRead disk j with
    | none => rw [hr] at h; exact absurd h (by simp)
    | some data =>
      rw [hr] at h
      rcases List.mem_cons.mp hi with hi | hi
      · subst hi
        rw [diskHas, hr]
        rfl
      · cases hrest : assembleFromDisk disk rest with
        | none => rw [hrest] at h; exact absurd h (by simp)
        | some tail => exact ih hrest i hi

theorem downloadFile_skip_all (sha : List Byte → String)
    (fetch : String → Nat → Option (List Byte)) (bfo : String → Option (List Bool))
    (rarest : Bool) (info : PeerFileInfo) (disk : Disk) (dest : List Byte)
    (hall : ∀ i, i < info.totalChunks → diskHas disk i = true)
    (hpe : info.peers.isEmpty = false)
    (hasm : assembleFromDisk disk (List.range info.totalChunks) = some dest) :
    downloadFile sha fetch bfo rarest info disk = .ok disk 0 info.totalChunks dest := by
  unfold downloadFile
  split
  case isTrue hc => rw [hpe] at hc; exact absurd hc (by simp)
  case isFalse hc =>
    dsimp only
    cases rarest with
    | false =>
      rw [if_neg Bool.false_ne_true]
      dsimp only
      rw [downloadChunks_all_skipped sha fetch none info.chunks info.peers
        (List.range info.totalChunks) disk 0 0
        (fun i hi => hall i (List.mem_range.mp hi))]
      dsimp only
      rw [hasm]
      rw [Nat.zero_add, List.length_range]
    | true =>
      rw [if_pos rfl]
      dsimp only
      rw [downloadChunks_all_skipped sha fetch
        (some (getBitfields bfo info.peers)) info.chunks info.peers
        (buildRarityOrder (getBitfields bfo info.peers) info.totalChunks) disk 0 0
        (fun i hi => hall i (List.mem_range.mp
          ((buildRarityOrder_perm (getBitfields bfo info.peers) info.totalChunks).mem_iff.mp hi)))]
      dsimp only
      rw [hasm]
      rw [Nat.zero_add,
        (buildRarityOrder_perm (getBitfields bfo info.peers) info.totalChunks).length_eq,
        List.length_range]

/-- C8: `DownloadFile` is resumable and idempotent on its chunk store: a
chunk whose `chunk_<i>.dat` exists is skipped, so a second run after a
successful download (in either selection mode, with any peers and
oracles) fetches zero chunks, skips all `total_chunks` of them, leaves
the chunk store unchanged and reproduces the same destination file. -/
theorem c8_download_resume_idempotent (sha : List Byte → String)
    (fetch : String → Nat → Option (List Byte)) (bfo : String → Option (List Bool))
    (rarest : Bool) (info : PeerFileInfo) (disk d : Disk) (dl sk : Nat)
    (dest : List Byte)
    (hrun : downloadFile sha fetch bfo rarest info disk = .ok d dl sk dest) :
    ∀ (sha₂ : List Byte → String) (fetch₂ : String → Nat → Option (List Byte))
      (bfo₂ : String → Option (List Bool)) (rarest₂ : Bool),
      downloadFile sha₂ fetch₂ bfo₂ rarest₂ info d = .ok d 0 info.totalChunks dest := by
  intro sha₂ fetch₂ bfo₂ rarest₂
  unfold downloadFile at hrun
  split at hrun
  case isTrue hc => exact absurd hrun (by simp)
  case isFalse hc =>
    dsimp only at hrun
    split at hrun
    · exact absurd hrun (by simp)
    · exact absurd hrun (by simp)
    case _ d₁ dl₁ sk₁ hloop =>
      split at hrun
      · exact absurd hrun (by simp)
      case _ dest₁ hasm =>
        have hpe : info.peers.isEmpty = false := by
          revert hc
          cases info.peers.isEmpty <;> simp
        injection hrun with h1 h2 h3 h4
        subst h1
        subst h4
        exact downloadFile_skip_all sha₂ fetch₂ bfo₂ rarest₂ info _ _
          (fun i hi => assembleFromDisk_isSome hasm i (List.mem_range.mpr hi))
          hpe hasm

/-- Witness for C8: after a concrete successful one-chunk download, a second
run — even in rarest-first mode with unreachable peers — fetches nothing,
skips the one chunk and writes the same destination bytes. -/
theorem c8_download_resume_idempotent_witness :
    downloadFile (fun _ => "x") (fun _ _ => none) (fun _ => none) true c2InfoW [(0, [7])]
      = .ok [(0, [7])] 0 1 [7] := by
  exact c8_download_resume_idempotent (fun _ => "h") (fun _ _ => some [7]) (fun _ => none)
    false c2InfoW [] [(0, [7])] 1 0 [7] (by rfl) (fun _ => "x") (fun _ _ => none)
    (fun _ => none) true

end P2P
